import Mathlib

/-!
Verification development for the fluid-solver core of
`Source/FluidSimulation/FluidGrid.cpp` (a 2D stable-fluids solver).

Scalar fields are modelled as functions from the linear storage offset to
rationals (the C++ stores `TArray<float>` indexed through `IX`); float
arithmetic is modelled exactly over `ℚ`.  All loops are translated as left
folds over the same index ranges the C++ `for` loops traverse, and in-place
array mutation becomes sequential function update, preserving the
Gauss-Seidel (read-your-own-writes) character of the original code.
-/

namespace FluidGrid

/-- A scalar field: linear storage offset to value.  The C++ `TArray<float>`
is accessed exclusively through `IX`, so the offset is the whole story. -/
abbrev Field := ℤ → ℚ

/-- Modelled from the spec: the body of `IX` is declared in `FluidGrid.h`
but missing from the repository snapshot; the spec (§4.1 Grid Indexing)
says it "returns the unique linear offset `x + y*N`", i.e.
`IX(x, y) = x + y * Size`. -/
def IX (N : ℕ) (x y : ℤ) : ℤ := x + y * (N : ℤ)

/-- Pointwise functional update, the image of one array store. -/
def upd (f : Field) (k : ℤ) (v : ℚ) : Field := fun n => if n = k then v else f n

/-- The integer interval `[lo, lo+len)` as a list, in increasing order; the
index set of a C++ `for (i = lo; i < lo + len; i++)` loop. -/
def intRange : ℤ → ℕ → List ℤ
  | _, 0 => []
  | lo, n + 1 => lo :: intRange (lo + 1) n

/-- `FMath::Clamp(v, lo, hi)`: `v < lo ? lo : v < hi ? v : hi`. -/
def clampQ (v lo hi : ℚ) : ℚ := if v < lo then lo else if v < hi then v else hi

/-! ### SetBoundary -/

/-- One iteration of the first `SetBoundary` loop (row `i`):
`x[IX(i,0)] = b==2 ? -x[IX(i,1)] : x[IX(i,1)]` then
`x[IX(i,Size-1)] = b==2 ? -x[IX(i,Size-2)] : x[IX(i,Size-2)]`. -/
def rowStep (N b : ℕ) (x : Field) (i : ℤ) : Field :=
  let x1 := upd x (IX N i 0) (if b = 2 then -(x (IX N i 1)) else x (IX N i 1))
  upd x1 (IX N i ((N : ℤ) - 1))
    (if b = 2 then -(x1 (IX N i ((N : ℤ) - 2))) else x1 (IX N i ((N : ℤ) - 2)))

/-- One iteration of the second `SetBoundary` loop (column `j`):
`x[IX(0,j)] = b==1 ? -x[IX(1,j)] : x[IX(1,j)]` then
`x[IX(Size-1,j)] = b==1 ? -x[IX(1,j)] : x[IX(Size-2,j)]` (note the negated
branch of the right edge reads column `1`, exactly as the source does). -/
def colStep (N b : ℕ) (x : Field) (j : ℤ) : Field :=
  let x1 := upd x (IX N 0 j) (if b = 1 then -(x (IX N 1 j)) else x (IX N 1 j))
  upd x1 (IX N ((N : ℤ) - 1) j)
    (if b = 1 then -(x1 (IX N 1 j)) else x1 (IX N ((N : ℤ) - 2) j))

/-- The two edge loops of `SetBoundary`, rows then columns, `i`/`j` running
over `1 .. Size-2`. -/
def edgeLoops (N b : ℕ) (x : Field) : Field :=
  (intRange 1 (N - 2)).foldl (colStep N b) ((intRange 1 (N - 2)).foldl (rowStep N b) x)

/-- The four corner assignments closing `SetBoundary`, in source order. -/
def corners (N : ℕ) (x3 : Field) : Field :=
  let x4 := upd x3 (IX N 0 0) ((1 / 2 : ℚ) * (x3 (IX N 1 0) + x3 (IX N 0 1)))
  let x5 := upd x4 (IX N 0 ((N : ℤ) - 1))
    ((1 / 2 : ℚ) * (x4 (IX N 1 ((N : ℤ) - 1)) + x4 (IX N 0 ((N : ℤ) - 2))))
  let x6 := upd x5 (IX N ((N : ℤ) - 1) 0)
    ((1 / 2 : ℚ) * (x5 (IX N ((N : ℤ) - 2) 0) + x5 (IX N ((N : ℤ) - 1) 1)))
  upd x6 (IX N ((N : ℤ) - 1) ((N : ℤ) - 1))
    ((1 / 2 : ℚ) * (x6 (IX N ((N : ℤ) - 2) ((N : ℤ) - 1)) + x6 (IX N ((N : ℤ) - 1) ((N : ℤ) - 2))))

/-- `AFluidGrid::SetBoundary(b, x)`. -/
def SetBoundary (N b : ℕ) (x : Field) : Field := corners N (edgeLoops N b x)

/-! ### LinearSolve and Diffuse -/

/-- The body of the `LinearSolve` inner loop at cell `(i, j)`:
`x[IX(i,j)] = (x0[IX(i,j)] + a*(x[IX(i+1,j)] + x[IX(i-1,j)] + x[IX(i,j+1)] + x[IX(i,j-1)])) * cRecip`,
reading the current (partially updated) field `x`. -/
def gsCell (N : ℕ) (a cRecip : ℚ) (x0 x : Field) (i j : ℤ) : Field :=
  upd x (IX N i j)
    ((x0 (IX N i j) +
        a * (x (IX N (i + 1) j) + x (IX N (i - 1) j) + x (IX N i (j + 1)) + x (IX N i (j - 1)))) *
      cRecip)

/-- One full in-place Gauss-Seidel sweep of `LinearSolve` over the interior
(`j` outer, `i` inner, both `1 .. Size-2`). -/
def gsSweep (N : ℕ) (a cRecip : ℚ) (x0 x : Field) : Field :=
  (intRange 1 (N - 2)).foldl
    (fun acc j => (intRange 1 (N - 2)).foldl (fun acc2 i => gsCell N a cRecip x0 acc2 i j) acc) x

/-- The `t` loop of `LinearSolve`: each iteration is one sweep followed by
`SetBoundary(b, x)`. -/
def lsIter (N b : ℕ) (a cRecip : ℚ) (x0 : Field) : ℕ → Field → Field
  | 0, x => x
  | t + 1, x => lsIter N b a cRecip x0 t (SetBoundary N b (gsSweep N a cRecip x0 x))

/-- `AFluidGrid::LinearSolve(b, x, x0, a, c)`: `cRecip = 1/c`, then `Size`
iterations of sweep-plus-boundary. -/
def LinearSolve (N b : ℕ) (x x0 : Field) (a c : ℚ) : Field :=
  lsIter N b a (1 / c) x0 N x

/-- `AFluidGrid::Diffuse(b, x, x0, diff, dt)`:
`a = dt * diff * (Size-2) * (Size-2)`, then `LinearSolve(b, x, x0, a, 1+4a)`. -/
def Diffuse (N b : ℕ) (x x0 : Field) (diff dt : ℚ) : Field :=
  LinearSolve N b x x0 (dt * diff * ((N : ℚ) - 2) * ((N : ℚ) - 2))
    (1 + 4 * (dt * diff * ((N : ℚ) - 2) * ((N : ℚ) - 2)))

/-! ### Advect -/

/-- The clamped back-traced coordinate of `Advect` along one axis:
`coord - dt*(Size-2)*veloc` clamped into `[0.5, (Size-2) + 0.5]`. -/
def advCoord (N : ℕ) (dt v : ℚ) (i : ℤ) : ℚ :=
  clampQ ((i : ℚ) - dt * ((N : ℚ) - 2) * v) (1 / 2) (((N : ℚ) - 2) + 1 / 2)

/-- The value `Advect` writes into `d[IX(i,j)]`: bilinear interpolation of
`d0` at the clamped back-traced position. -/
def advCellVal (N : ℕ) (d0 velocX velocY : Field) (dt : ℚ) (i j : ℤ) : ℚ :=
  let x := advCoord N dt (velocX (IX N i j)) i
  let y := advCoord N dt (velocY (IX N i j)) j
  let i0 : ℤ := x.floor
  let i1 : ℤ := i0 + 1
  let j0 : ℤ := y.floor
  let j1 : ℤ := j0 + 1
  let s1 := x - (i0 : ℚ)
  let s0 := 1 - s1
  let t1 := y - (j0 : ℚ)
  let t0 := 1 - t1
  s0 * (t0 * d0 (IX N i0 j0) + t1 * d0 (IX N i0 j1)) +
    s1 * (t0 * d0 (IX N i1 j0) + t1 * d0 (IX N i1 j1))

/-- The interior double loop of `Advect` (`j` outer, `i` inner). -/
def advLoop (N : ℕ) (d d0 velocX velocY : Field) (dt : ℚ) : Field :=
  (intRange 1 (N - 2)).foldl
    (fun acc j =>
      (intRange 1 (N - 2)).foldl
        (fun acc2 i => upd acc2 (IX N i j) (advCellVal N d0 velocX velocY dt i j)) acc) d

/-- `AFluidGrid::Advect(b, d, d0, velocX, velocY, dt)`. -/
def Advect (N b : ℕ) (d d0 velocX velocY : Field) (dt : ℚ) : Field :=
  SetBoundary N b (advLoop N d d0 velocX velocY dt)

/-! ### Project -/

/-- The divergence value `Project` writes into `div[IX(i,j)]`:
`(-0.5 * (Vx[i+1,j] - Vx[i-1,j] + Vy[i,j+1] - Vy[i,j-1])) / Size`. -/
def divVal (N : ℕ) (velocX velocY : Field) (i j : ℤ) : ℚ :=
  -(1 / 2 : ℚ) *
      (velocX (IX N (i + 1) j) - velocX (IX N (i - 1) j) + velocY (IX N i (j + 1)) -
        velocY (IX N i (j - 1))) /
    (N : ℚ)

/-- The first interior loop of `Project`, writing `div` and zeroing `p` at
each interior cell (carried as a pair, mirroring the two stores per cell). -/
def divPLoop (N : ℕ) (velocX velocY : Field) (p dv : Field) : Field × Field :=
  (intRange 1 (N - 2)).foldl
    (fun acc j =>
      (intRange 1 (N - 2)).foldl
        (fun acc2 i =>
          (upd acc2.1 (IX N i j) 0, upd acc2.2 (IX N i j) (divVal N velocX velocY i j))) acc)
    (p, dv)

/-- The gradient-subtraction loop of `Project`:
`velocX[i,j] -= 0.5*(p[i+1,j] - p[i-1,j])*Size` and
`velocY[i,j] -= 0.5*(p[i,j+1] - p[i,j-1])*Size`. -/
def gradLoop (N : ℕ) (p : Field) (velocX velocY : Field) : Field × Field :=
  (intRange 1 (N - 2)).foldl
    (fun acc j =>
      (intRange 1 (N - 2)).foldl
        (fun acc2 i =>
          (upd acc2.1 (IX N i j)
            (acc2.1 (IX N i j) - (1 / 2 : ℚ) * (p (IX N (i + 1) j) - p (IX N (i - 1) j)) * (N : ℚ)),
           upd acc2.2 (IX N i j)
            (acc2.2 (IX N i j) - (1 / 2 : ℚ) * (p (IX N i (j + 1)) - p (IX N i (j - 1))) * (N : ℚ))))
        acc)
    (velocX, velocY)

/-- The four fields `Project` leaves behind: the two velocity components and
the final contents of the two scratch buffers (`p`, `div`). -/
structure ProjOut where
  vx : Field
  vy : Field
  p : Field
  dv : Field

/-- `AFluidGrid::Project(velocX, velocY, p, div)`: divergence/zero loop,
`SetBoundary(0, div)`, `SetBoundary(0, p)`, `LinearSolve(0, p, div, 1, 6)`,
gradient subtraction, `SetBoundary(1, velocX)`, `SetBoundary(2, velocY)`. -/
def Project (N : ℕ) (velocX velocY p dv : Field) : ProjOut :=
  let pd := divPLoop N velocX velocY p dv
  let dv1 := SetBoundary N 0 pd.2
  let p1 := SetBoundary N 0 pd.1
  let p2 := LinearSolve N 0 p1 dv1 1 6
  let vv := gradLoop N p2 velocX velocY
  ⟨SetBoundary N 1 vv.1, SetBoundary N 2 vv.2, p2, dv1⟩

/-! ### The step orchestrator -/

/-- Solver state: the persistent `Density`, `Vx`, `Vy` fields (the unused
`Vz` storage plays no part in the 2D step and is omitted). -/
structure SimState where
  density : Field
  vx : Field
  vy : Field

/-- `AFluidGrid::AddDensity(x, y, amount)`. -/
def AddDensity (N : ℕ) (s : SimState) (x y : ℤ) (amount : ℚ) : SimState :=
  ⟨upd s.density (IX N x y) (s.density (IX N x y) + amount), s.vx, s.vy⟩

/-- `AFluidGrid::AddVelocity(x, y, amountX, amountY)`. -/
def AddVelocity (N : ℕ) (s : SimState) (x y : ℤ) (amountX amountY : ℚ) : SimState :=
  ⟨s.density, upd s.vx (IX N x y) (s.vx (IX N x y) + amountX),
    upd s.vy (IX N x y) (s.vy (IX N x y) + amountY)⟩

/-- The unconditional forcing at the top of `StepSimulation`:
`AddDensity(Size/2, Size/2, 100)` then `AddVelocity(Size/2, Size/2, 1, 0)`. -/
def stepInject (N : ℕ) (s : SimState) : SimState :=
  AddVelocity N (AddDensity N s ((N : ℤ) / 2) ((N : ℤ) / 2) 100) ((N : ℤ) / 2) ((N : ℤ) / 2) 1 0

/-- `Diffuse(1, Vx, Vx0, Viscosity, Dt)` of `StepSimulation`, where the
scratch `Vx0` is a copy of `Vx` taken just before. -/
def coreDiffVx (N : ℕ) (dt visc : ℚ) (s1 : SimState) : Field :=
  Diffuse N 1 s1.vx s1.vx visc dt

/-- `Diffuse(2, Vy, Vy0, Viscosity, Dt)` of `StepSimulation`. -/
def coreDiffVy (N : ℕ) (dt visc : ℚ) (s1 : SimState) : Field :=
  Diffuse N 2 s1.vy s1.vy visc dt

/-- The first `Project(Vx, Vy, Vx0, Vy0)` of `StepSimulation`: the diffused
velocity is projected using the snapshot buffers `Vx0`, `Vy0` as the
pressure/divergence workspace (their prior contents are overwritten). -/
def coreProj1 (N : ℕ) (dt visc : ℚ) (s1 : SimState) : ProjOut :=
  Project N (coreDiffVx N dt visc s1) (coreDiffVy N dt visc s1) s1.vx s1.vy

/-- `Advect(1, Vx, Vx0, Vx0, Vy0, Dt)` of `StepSimulation`.  At this point
`Vx0` and `Vy0` hold the pressure and divergence left behind by `Project`,
and they are what gets passed as both the advected source and the carrying
velocity. -/
def coreAdvVx (N : ℕ) (dt visc : ℚ) (s1 : SimState) : Field :=
  Advect N 1 (coreProj1 N dt visc s1).vx (coreProj1 N dt visc s1).p (coreProj1 N dt visc s1).p
    (coreProj1 N dt visc s1).dv dt

/-- `Advect(2, Vy, Vy0, Vx0, Vy0, Dt)` of `StepSimulation`. -/
def coreAdvVy (N : ℕ) (dt visc : ℚ) (s1 : SimState) : Field :=
  Advect N 2 (coreProj1 N dt visc s1).vy (coreProj1 N dt visc s1).dv (coreProj1 N dt visc s1).p
    (coreProj1 N dt visc s1).dv dt

/-- The second `Project(Vx, Vy, Vx0, Vy0)` of `StepSimulation`. -/
def coreProj2 (N : ℕ) (dt visc : ℚ) (s1 : SimState) : ProjOut :=
  Project N (coreAdvVx N dt visc s1) (coreAdvVy N dt visc s1) (coreProj1 N dt visc s1).p
    (coreProj1 N dt visc s1).dv

/-- `Diffuse(0, Density, Density0, Diffusion, Dt)` of `StepSimulation`. -/
def coreDiffD (N : ℕ) (dt diff : ℚ) (s1 : SimState) : Field :=
  Diffuse N 0 s1.density s1.density diff dt

/-- `Advect(0, Density, Density0, Vx, Vy, Dt)` of `StepSimulation`. -/
def coreAdvD (N : ℕ) (dt diff visc : ℚ) (s1 : SimState) : Field :=
  Advect N 0 (coreDiffD N dt diff s1) s1.density (coreProj2 N dt visc s1).vx
    (coreProj2 N dt visc s1).vy dt

/-- The numerical passes of `StepSimulation` (everything after the forcing
injection), applied to the post-injection state `s1`. -/
def stepCore (N : ℕ) (dt diff visc : ℚ) (s1 : SimState) : SimState :=
  ⟨coreAdvD N dt diff visc s1, (coreProj2 N dt visc s1).vx, (coreProj2 N dt visc s1).vy⟩

/-- `AFluidGrid::StepSimulation()`: forcing injection followed by the
numerical passes (rendering and logging are outside the numerical core). -/
def StepSimulation (N : ℕ) (dt diff visc : ℚ) (s : SimState) : SimState :=
  stepCore N dt diff visc (stepInject N s)

/-- The all-zero field. -/
def zeroF : Field := fun _ => 0

/-- The all-zero solver state. -/
def zeroS : SimState := ⟨zeroF, zeroF, zeroF⟩

/-! ### Specification-side definitions

These restate, word for word, what the spec says the routines do; the
refinement theorems below compare them with the definitions translated from
the source. -/

/-- The cell update as the spec words it: `x[i,j] = (x0[i,j] + a*(x[i+1,j] +
x[i-1,j] + x[i,j+1] + x[i,j-1])) / c`, performed in place. -/
def gsCellSpec (N : ℕ) (a c : ℚ) (x0 x : Field) (i j : ℤ) : Field :=
  upd x (IX N i j)
    ((x0 (IX N i j) +
        a * (x (IX N (i + 1) j) + x (IX N (i - 1) j) + x (IX N i (j + 1)) + x (IX N i (j - 1)))) /
      c)

/-- One full Gauss-Seidel sweep over all interior cells, as the spec words
it (later cells see already-updated neighbors). -/
def gsSweepSpec (N : ℕ) (a c : ℚ) (x0 x : Field) : Field :=
  (intRange 1 (N - 2)).foldl
    (fun acc j => (intRange 1 (N - 2)).foldl (fun acc2 i => gsCellSpec N a c x0 acc2 i j) acc) x

/-- The solver as the spec words it: exactly `N` full sweeps, each followed
by one application of `SetBoundary` with kind `b`, the count fixed
regardless of convergence. -/
def LinearSolveSpec (N b : ℕ) (x x0 : Field) (a c : ℚ) : Field :=
  (fun y => SetBoundary N b (gsSweepSpec N a c x0 y))^[N] x

/-- The divergence pass of the spec in isolation: write
`div[i,j] = -0.5*(Vx[i+1,j]-Vx[i-1,j] + Vy[i,j+1]-Vy[i,j-1])/N` at every
interior cell. -/
def divLoop (N : ℕ) (velocX velocY : Field) (dv : Field) : Field :=
  (intRange 1 (N - 2)).foldl
    (fun acc j =>
      (intRange 1 (N - 2)).foldl
        (fun acc2 i => upd acc2 (IX N i j) (divVal N velocX velocY i j)) acc) dv

/-- The pressure zeroing of the spec in isolation: `p[i,j] = 0` at every interior
cell. -/
def pZeroLoop (N : ℕ) (p : Field) : Field :=
  (intRange 1 (N - 2)).foldl
    (fun acc j => (intRange 1 (N - 2)).foldl (fun acc2 i => upd acc2 (IX N i j) 0) acc) p

/-- The projection step as the spec words it: divergence loop, pressure
zeroing, `SetBoundary` kind 0 on `div` then `p`, `LinearSolve(0, p, div, 1, 6)`,
gradient subtraction, then `SetBoundary` on `Vx` (kind 1) and `Vy` (kind 2). -/
def ProjectSpec (N : ℕ) (velocX velocY p dv : Field) : ProjOut :=
  let dv0 := divLoop N velocX velocY dv
  let p0 := pZeroLoop N p
  let dv1 := SetBoundary N 0 dv0
  let p1 := SetBoundary N 0 p0
  let p2 := LinearSolve N 0 p1 dv1 1 6
  let vv := gradLoop N p2 velocX velocY
  ⟨SetBoundary N 1 vv.1, SetBoundary N 2 vv.2, p2, dv1⟩

/-! ### Concrete inputs used in counterexamples and witnesses -/

/-- A 4x4 field with `f(1,1) = 1`, `f(2,1) = 2`, zero elsewhere. -/
def exF3 : Field := upd (upd zeroF (IX 4 1 1) 1) (IX 4 2 1) 2

/-- A 3x3 field with `f(1,0) = 5`, `f(1,1) = 7`, zero elsewhere. -/
def exD0 : Field := upd (upd zeroF (IX 3 1 0) 5) (IX 3 1 1) 7

/-- A 3x3 field with distinct values near the origin. -/
def wF : Field := upd (upd (upd zeroF (IX 3 1 1) 3) (IX 3 1 0) 4) (IX 3 0 1) 6

/-! ## Basic lemmas about the building blocks -/

theorem upd_same (f : Field) (k : ℤ) (v : ℚ) : upd f k v k = v := if_pos rfl

theorem upd_ne (f : Field) (k : ℤ) (v : ℚ) {n : ℤ} (h : n ≠ k) : upd f k v n = f n := if_neg h

theorem mem_intRange {k lo : ℤ} {len : ℕ} : k ∈ intRange lo len ↔ lo ≤ k ∧ k < lo + len := by
  induction len generalizing lo with
  | zero => simp only [intRange, List.not_mem_nil, false_iff]; omega
  | succ n ih =>
    simp only [intRange, List.mem_cons, ih]
    omega

theorem intRange_nodup (lo : ℤ) (len : ℕ) : (intRange lo len).Nodup := by
  induction len generalizing lo with
  | zero => exact List.nodup_nil
  | succ n ih =>
    refine List.nodup_cons.mpr ⟨fun h => ?_, ih (lo + 1)⟩
    have := mem_intRange.mp h
    omega

theorem foldl_inv {α β : Type _} (P : β → Prop) (step : β → α → β) (l : List α) (b : β)
    (hb : P b) (hstep : ∀ c a, a ∈ l → P c → P (step c a)) : P (l.foldl step b) := by
  induction l generalizing b with
  | nil => exact hb
  | cons a t ih =>
    exact ih (step b a) (hstep b a (List.mem_cons_self a t) hb)
      (fun c a' ha' hc => hstep c a' (List.mem_cons_of_mem a ha') hc)

theorem IX_inj {N : ℕ} {x1 y1 x2 y2 : ℤ} (hx1 : 0 ≤ x1) (hx1N : x1 < N) (hx2 : 0 ≤ x2)
    (hx2N : x2 < N) (h : IX N x1 y1 = IX N x2 y2) : x1 = x2 ∧ y1 = y2 := by
  unfold IX at h
  have hN : (0 : ℤ) < N := lt_of_le_of_lt hx1 hx1N
  have hy : y1 = y2 := by
    rcases lt_trichotomy y1 y2 with hlt | heq | hgt
    · exfalso
      have h1 : (1 : ℤ) ≤ y2 - y1 := by omega
      have h2 : (N : ℤ) ≤ (y2 - y1) * N := le_mul_of_one_le_left hN.le h1
      have h3 : (y2 - y1) * (N : ℤ) = x1 - x2 := by rw [sub_mul]; linarith
      linarith
    · exact heq
    · exfalso
      have h1 : (1 : ℤ) ≤ y1 - y2 := by omega
      have h2 : (N : ℤ) ≤ (y1 - y2) * N := le_mul_of_one_le_left hN.le h1
      have h3 : (y1 - y2) * (N : ℤ) = x2 - x1 := by rw [sub_mul]; linarith
      linarith
  subst hy
  exact ⟨by linarith, rfl⟩

theorem IX_ne {N : ℕ} {x1 y1 x2 y2 : ℤ} (hx1 : 0 ≤ x1) (hx1N : x1 < N) (hx2 : 0 ≤ x2)
    (hx2N : x2 < N) (h : ¬(x1 = x2 ∧ y1 = y2)) : IX N x1 y1 ≠ IX N x2 y2 :=
  fun he => h (IX_inj hx1 hx1N hx2 hx2N he)

theorem IX_bounds {N : ℕ} {x y : ℤ} (hx : 0 ≤ x) (hxN : x < N) (hy : 0 ≤ y) (hyN : y < N) :
    0 ≤ IX N x y ∧ IX N x y < (N : ℤ) * N := by
  unfold IX
  have hN : (0 : ℤ) ≤ N := le_trans hx hxN.le
  constructor
  · exact add_nonneg hx (mul_nonneg hy hN)
  · have h1 : y * (N : ℤ) ≤ ((N : ℤ) - 1) * N :=
      mul_le_mul_of_nonneg_right (by omega) hN
    nlinarith

/-! ## Characterizing `SetBoundary` cell by cell -/

theorem rowStep_pres {N b : ℕ} {x : Field} {i n : ℤ} (h0 : n ≠ IX N i 0)
    (h1 : n ≠ IX N i ((N : ℤ) - 1)) : rowStep N b x i n = x n := by
  unfold rowStep
  simp only [upd, if_neg h1, if_neg h0]

theorem colStep_pres {N b : ℕ} {x : Field} {j n : ℤ} (h0 : n ≠ IX N 0 j)
    (h1 : n ≠ IX N ((N : ℤ) - 1) j) : colStep N b x j n = x n := by
  unfold colStep
  simp only [upd, if_neg h1, if_neg h0]

theorem rowLoop_pres {N b : ℕ} {l : List ℤ} {x : Field} {n : ℤ}
    (h : ∀ i ∈ l, n ≠ IX N i 0 ∧ n ≠ IX N i ((N : ℤ) - 1)) :
    (l.foldl (rowStep N b) x) n = x n := by
  induction l generalizing x with
  | nil => rfl
  | cons a t ih =>
    rw [List.foldl_cons, ih (fun i hi => h i (List.mem_cons_of_mem a hi))]
    exact rowStep_pres (h a (List.mem_cons_self a t)).1 (h a (List.mem_cons_self a t)).2

theorem colLoop_pres {N b : ℕ} {l : List ℤ} {x : Field} {n : ℤ}
    (h : ∀ j ∈ l, n ≠ IX N 0 j ∧ n ≠ IX N ((N : ℤ) - 1) j) :
    (l.foldl (colStep N b) x) n = x n := by
  induction l generalizing x with
  | nil => rfl
  | cons a t ih =>
    rw [List.foldl_cons, ih (fun j hj => h j (List.mem_cons_of_mem a hj))]
    exact colStep_pres (h a (List.mem_cons_self a t)).1 (h a (List.mem_cons_self a t)).2

theorem rowLoop_val {N b : ℕ} (hN : 3 ≤ N) {l : List ℤ}
    (hl : ∀ k ∈ l, 1 ≤ k ∧ k ≤ (N : ℤ) - 2) (hnd : l.Nodup) {x : Field} {i : ℤ} (hi : i ∈ l) :
    (l.foldl (rowStep N b) x) (IX N i 0) =
        (if b = 2 then -(x (IX N i 1)) else x (IX N i 1)) ∧
      (l.foldl (rowStep N b) x) (IX N i ((N : ℤ) - 1)) =
        (if b = 2 then -(x (IX N i ((N : ℤ) - 2))) else x (IX N i ((N : ℤ) - 2))) := by
  have hN3 : (3 : ℤ) ≤ (N : ℤ) := by exact_mod_cast hN
  induction l generalizing x with
  | nil => cases hi
  | cons a t ih =>
    have ha := hl a (List.mem_cons_self a t)
    have hat : a ∉ t := (List.nodup_cons.mp hnd).1
    have htl : ∀ k ∈ t, 1 ≤ k ∧ k ≤ (N : ℤ) - 2 := fun k hk => hl k (List.mem_cons_of_mem a hk)
    rcases List.mem_cons.mp hi with rfl | hit
    · rw [List.foldl_cons]
      have hpres : ∀ k ∈ t, ∀ y : ℤ, y = 0 ∨ y = (N : ℤ) - 1 →
          IX N i y ≠ IX N k 0 ∧ IX N i y ≠ IX N k ((N : ℤ) - 1) := by
        intro k hk y hy
        have hkb := htl k hk
        have hik : i ≠ k := fun he => hat (he ▸ hk)
        constructor
        · exact IX_ne (by omega) (by omega) (by omega) (by omega) (by tauto)
        · exact IX_ne (by omega) (by omega) (by omega) (by omega) (by tauto)
      constructor
      · rw [rowLoop_pres (fun k hk => hpres k hk 0 (Or.inl rfl))]
        simp only [rowStep]
        rw [upd_ne _ _ _ (IX_ne (by omega) (by omega) (by omega) (by omega) (by omega)),
          upd_same]
      · rw [rowLoop_pres (fun k hk => hpres k hk ((N : ℤ) - 1) (Or.inr rfl))]
        simp only [rowStep]
        rw [upd_same,
          upd_ne _ _ _ (@IX_ne N (i) ((N : ℤ) - 2) (i) (0)
            (by omega) (by omega) (by omega) (by omega) (by omega))]
    · rw [List.foldl_cons]
      have hres := ih htl (List.nodup_cons.mp hnd).2 hit (x := rowStep N b x a)
      have h1 : rowStep N b x a (IX N i 1) = x (IX N i 1) := by
        have hib := hl i hi
        exact rowStep_pres
          (IX_ne (by omega) (by omega) (by omega) (by omega) (by omega))
          (IX_ne (by omega) (by omega) (by omega) (by omega) (by omega))
      have h2 : rowStep N b x a (IX N i ((N : ℤ) - 2)) = x (IX N i ((N : ℤ) - 2)) := by
        have hib := hl i hi
        exact rowStep_pres
          (IX_ne (by omega) (by omega) (by omega) (by omega) (by omega))
          (IX_ne (by omega) (by omega) (by omega) (by omega) (by omega))
      rw [hres.1, hres.2, h1, h2]
      exact ⟨rfl, rfl⟩

theorem colLoop_val {N b : ℕ} (hN : 3 ≤ N) {l : List ℤ}
    (hl : ∀ k ∈ l, 1 ≤ k ∧ k ≤ (N : ℤ) - 2) (hnd : l.Nodup) {x : Field} {j : ℤ} (hj : j ∈ l) :
    (l.foldl (colStep N b) x) (IX N 0 j) =
        (if b = 1 then -(x (IX N 1 j)) else x (IX N 1 j)) ∧
      (l.foldl (colStep N b) x) (IX N ((N : ℤ) - 1) j) =
        (if b = 1 then -(x (IX N 1 j)) else x (IX N ((N : ℤ) - 2) j)) := by
  have hN3 : (3 : ℤ) ≤ (N : ℤ) := by exact_mod_cast hN
  induction l generalizing x with
  | nil => cases hj
  | cons a t ih =>
    have ha := hl a (List.mem_cons_self a t)
    have hat : a ∉ t := (List.nodup_cons.mp hnd).1
    have htl : ∀ k ∈ t, 1 ≤ k ∧ k ≤ (N : ℤ) - 2 := fun k hk => hl k (List.mem_cons_of_mem a hk)
    rcases List.mem_cons.mp hj with rfl | hjt
    · rw [List.foldl_cons]
      have hpres : ∀ k ∈ t, ∀ y : ℤ, y = 0 ∨ y = (N : ℤ) - 1 →
          IX N y j ≠ IX N 0 k ∧ IX N y j ≠ IX N ((N : ℤ) - 1) k := by
        intro k hk y hy
        have hkb := htl k hk
        have hjk : j ≠ k := fun he => hat (he ▸ hk)
        constructor
        · exact IX_ne (by omega) (by omega) (by omega) (by omega) (by tauto)
        · exact IX_ne (by omega) (by omega) (by omega) (by omega) (by tauto)
      constructor
      · rw [colLoop_pres (fun k hk => hpres k hk 0 (Or.inl rfl))]
        simp only [colStep]
        rw [upd_ne _ _ _ (@IX_ne N ((0 : ℤ)) (j) ((N : ℤ) - 1) (j)
            (by omega) (by omega) (by omega) (by omega) (by omega)), upd_same]
      · rw [colLoop_pres (fun k hk => hpres k hk ((N : ℤ) - 1) (Or.inr rfl))]
        simp only [colStep]
        rw [upd_same,
          upd_ne _ _ _ (@IX_ne N ((1 : ℤ)) (j) ((0 : ℤ)) (j)
            (by omega) (by omega) (by omega) (by omega) (by omega)),
          upd_ne _ _ _ (@IX_ne N ((N : ℤ) - 2) (j) ((0 : ℤ)) (j)
            (by omega) (by omega) (by omega) (by omega) (by omega))]
    · rw [List.foldl_cons]
      have hres := ih htl (List.nodup_cons.mp hnd).2 hjt (x := colStep N b x a)
      have h1 : colStep N b x a (IX N 1 j) = x (IX N 1 j) := by
        have hjb := hl j hj
        exact colStep_pres
          (IX_ne (by omega) (by omega) (by omega) (by omega) (by omega))
          (IX_ne (by omega) (by omega) (by omega) (by omega) (by omega))
      have h2 : colStep N b x a (IX N ((N : ℤ) - 2) j) = x (IX N ((N : ℤ) - 2) j) := by
        have hjb := hl j hj
        exact colStep_pres
          (IX_ne (by omega) (by omega) (by omega) (by omega) (by omega))
          (IX_ne (by omega) (by omega) (by omega) (by omega) (by omega))
      rw [hres.1, hres.2, h1, h2]
      exact ⟨rfl, rfl⟩

theorem corners_pres {N : ℕ} {x3 : Field} {n : ℤ} (h00 : n ≠ IX N 0 0)
    (h0N : n ≠ IX N 0 ((N : ℤ) - 1)) (hN0 : n ≠ IX N ((N : ℤ) - 1) 0)
    (hNN : n ≠ IX N ((N : ℤ) - 1) ((N : ℤ) - 1)) : corners N x3 n = x3 n := by
  simp only [corners]
  rw [upd_ne _ _ _ hNN, upd_ne _ _ _ hN0, upd_ne _ _ _ h0N, upd_ne _ _ _ h00]

theorem corners_c00 {N : ℕ} (hN : 3 ≤ N) (x3 : Field) :
    corners N x3 (IX N 0 0) = (1 / 2 : ℚ) * (x3 (IX N 1 0) + x3 (IX N 0 1)) := by
  have hN3 : (3 : ℤ) ≤ (N : ℤ) := by exact_mod_cast hN
  simp only [corners]
  rw [upd_ne _ _ _ (IX_ne (by omega) (by omega) (by omega) (by omega) (by omega)),
    upd_ne _ _ _ (IX_ne (by omega) (by omega) (by omega) (by omega) (by omega)),
    upd_ne _ _ _ (IX_ne (by omega) (by omega) (by omega) (by omega) (by omega)),
    upd_same]

theorem corners_c0N {N : ℕ} (hN : 3 ≤ N) (x3 : Field) :
    corners N x3 (IX N 0 ((N : ℤ) - 1)) =
      (1 / 2 : ℚ) * (x3 (IX N 1 ((N : ℤ) - 1)) + x3 (IX N 0 ((N : ℤ) - 2))) := by
  have hN3 : (3 : ℤ) ≤ (N : ℤ) := by exact_mod_cast hN
  simp only [corners]
  rw [upd_ne _ _ _ (IX_ne (by omega) (by omega) (by omega) (by omega) (by omega)),
    upd_ne _ _ _ (IX_ne (by omega) (by omega) (by omega) (by omega) (by omega)),
    upd_same,
    upd_ne _ _ _ (@IX_ne N ((1 : ℤ)) ((N : ℤ) - 1) (0) (0)
      (by omega) (by omega) (by omega) (by omega) (by omega)),
    upd_ne _ _ _ (@IX_ne N ((0 : ℤ)) ((N : ℤ) - 2) (0) (0)
      (by omega) (by omega) (by omega) (by omega) (by omega))]

theorem corners_cN0 {N : ℕ} (hN : 3 ≤ N) (x3 : Field) :
    corners N x3 (IX N ((N : ℤ) - 1) 0) =
      (1 / 2 : ℚ) * (x3 (IX N ((N : ℤ) - 2) 0) + x3 (IX N ((N : ℤ) - 1) 1)) := by
  have hN3 : (3 : ℤ) ≤ (N : ℤ) := by exact_mod_cast hN
  simp only [corners]
  rw [upd_ne _ _ _ (IX_ne (by omega) (by omega) (by omega) (by omega) (by omega)),
    upd_same,
    upd_ne _ _ _ (@IX_ne N ((N : ℤ) - 2) (0) (0) ((N : ℤ) - 1)
      (by omega) (by omega) (by omega) (by omega) (by omega)),
    upd_ne _ _ _ (@IX_ne N ((N : ℤ) - 2) (0) (0) (0)
      (by omega) (by omega) (by omega) (by omega) (by omega)),
    upd_ne _ _ _ (@IX_ne N ((N : ℤ) - 1) (1) (0) ((N : ℤ) - 1)
      (by omega) (by omega) (by omega) (by omega) (by omega)),
    upd_ne _ _ _ (@IX_ne N ((N : ℤ) - 1) (1) (0) (0)
      (by omega) (by omega) (by omega) (by omega) (by omega))]

theorem corners_cNN {N : ℕ} (hN : 3 ≤ N) (x3 : Field) :
    corners N x3 (IX N ((N : ℤ) - 1) ((N : ℤ) - 1)) =
      (1 / 2 : ℚ) *
        (x3 (IX N ((N : ℤ) - 2) ((N : ℤ) - 1)) + x3 (IX N ((N : ℤ) - 1) ((N : ℤ) - 2))) := by
  have hN3 : (3 : ℤ) ≤ (N : ℤ) := by exact_mod_cast hN
  simp only [corners]
  rw [upd_same,
    upd_ne _ _ _ (@IX_ne N ((N : ℤ) - 2) ((N : ℤ) - 1) ((N : ℤ) - 1) (0) (by omega) (by omega) (by omega) (by omega) (by omega)),
    upd_ne _ _ _ (@IX_ne N ((N : ℤ) - 2) ((N : ℤ) - 1) (0) ((N : ℤ) - 1) (by omega) (by omega) (by omega) (by omega) (by omega)),
    upd_ne _ _ _ (@IX_ne N ((N : ℤ) - 2) ((N : ℤ) - 1) (0) (0)
      (by omega) (by omega) (by omega) (by omega) (by omega)),
    upd_ne _ _ _ (@IX_ne N ((N : ℤ) - 1) ((N : ℤ) - 2) ((N : ℤ) - 1) (0) (by omega) (by omega) (by omega) (by omega) (by omega)),
    upd_ne _ _ _ (@IX_ne N ((N : ℤ) - 1) ((N : ℤ) - 2) (0) ((N : ℤ) - 1) (by omega) (by omega) (by omega) (by omega) (by omega)),
    upd_ne _ _ _ (@IX_ne N ((N : ℤ) - 1) ((N : ℤ) - 2) (0) (0)
      (by omega) (by omega) (by omega) (by omega) (by omega))]

theorem sb_interior {N : ℕ} (b : ℕ) (hN : 3 ≤ N) (x : Field) {i j : ℤ} (hi1 : 1 ≤ i)
    (hi2 : i ≤ (N : ℤ) - 2) (hj1 : 1 ≤ j) (hj2 : j ≤ (N : ℤ) - 2) :
    SetBoundary N b x (IX N i j) = x (IX N i j) := by
  have hN3 : (3 : ℤ) ≤ (N : ℤ) := by exact_mod_cast hN
  unfold SetBoundary edgeLoops
  rw [corners_pres (IX_ne (by omega) (by omega) (by omega) (by omega) (by omega))
      (IX_ne (by omega) (by omega) (by omega) (by omega) (by omega))
      (IX_ne (by omega) (by omega) (by omega) (by omega) (by omega))
      (IX_ne (by omega) (by omega) (by omega) (by omega) (by omega)),
    colLoop_pres (fun k hk => ?_), rowLoop_pres (fun k hk => ?_)]
  · have hkb := mem_intRange.mp hk
    exact ⟨IX_ne (by omega) (by omega) (by omega) (by omega) (by omega),
      IX_ne (by omega) (by omega) (by omega) (by omega) (by omega)⟩
  · have hkb := mem_intRange.mp hk
    exact ⟨IX_ne (by omega) (by omega) (by omega) (by omega) (by omega),
      IX_ne (by omega) (by omega) (by omega) (by omega) (by omega)⟩

theorem sb_top {N : ℕ} (b : ℕ) (hN : 3 ≤ N) (x : Field) {i : ℤ} (hi1 : 1 ≤ i)
    (hi2 : i ≤ (N : ℤ) - 2) :
    SetBoundary N b x (IX N i 0) = (if b = 2 then -(x (IX N i 1)) else x (IX N i 1)) := by
  have hN3 : (3 : ℤ) ≤ (N : ℤ) := by exact_mod_cast hN
  unfold SetBoundary edgeLoops
  rw [corners_pres (IX_ne (by omega) (by omega) (by omega) (by omega) (by omega))
      (IX_ne (by omega) (by omega) (by omega) (by omega) (by omega))
      (IX_ne (by omega) (by omega) (by omega) (by omega) (by omega))
      (IX_ne (by omega) (by omega) (by omega) (by omega) (by omega)),
    colLoop_pres (fun k hk => ?_)]
  · exact (rowLoop_val hN (fun k hk => by have := mem_intRange.mp hk; omega)
      (intRange_nodup 1 (N - 2)) (mem_intRange.mpr (by omega))).1
  · have hkb := mem_intRange.mp hk
    exact ⟨IX_ne (by omega) (by omega) (by omega) (by omega) (by omega),
      IX_ne (by omega) (by omega) (by omega) (by omega) (by omega)⟩

theorem sb_bottom {N : ℕ} (b : ℕ) (hN : 3 ≤ N) (x : Field) {i : ℤ} (hi1 : 1 ≤ i)
    (hi2 : i ≤ (N : ℤ) - 2) :
    SetBoundary N b x (IX N i ((N : ℤ) - 1)) =
      (if b = 2 then -(x (IX N i ((N : ℤ) - 2))) else x (IX N i ((N : ℤ) - 2))) := by
  have hN3 : (3 : ℤ) ≤ (N : ℤ) := by exact_mod_cast hN
  unfold SetBoundary edgeLoops
  rw [corners_pres (IX_ne (by omega) (by omega) (by omega) (by omega) (by omega))
      (IX_ne (by omega) (by omega) (by omega) (by omega) (by omega))
      (IX_ne (by omega) (by omega) (by omega) (by omega) (by omega))
      (IX_ne (by omega) (by omega) (by omega) (by omega) (by omega)),
    colLoop_pres (fun k hk => ?_)]
  · exact (rowLoop_val hN (fun k hk => by have := mem_intRange.mp hk; omega)
      (intRange_nodup 1 (N - 2)) (mem_intRange.mpr (by omega))).2
  · have hkb := mem_intRange.mp hk
    exact ⟨IX_ne (by omega) (by omega) (by omega) (by omega) (by omega),
      IX_ne (by omega) (by omega) (by omega) (by omega) (by omega)⟩

theorem sb_left {N : ℕ} (b : ℕ) (hN : 3 ≤ N) (x : Field) {j : ℤ} (hj1 : 1 ≤ j)
    (hj2 : j ≤ (N : ℤ) - 2) :
    SetBoundary N b x (IX N 0 j) = (if b = 1 then -(x (IX N 1 j)) else x (IX N 1 j)) := by
  have hN3 : (3 : ℤ) ≤ (N : ℤ) := by exact_mod_cast hN
  unfold SetBoundary edgeLoops
  rw [corners_pres (IX_ne (by omega) (by omega) (by omega) (by omega) (by omega))
      (IX_ne (by omega) (by omega) (by omega) (by omega) (by omega))
      (IX_ne (by omega) (by omega) (by omega) (by omega) (by omega))
      (IX_ne (by omega) (by omega) (by omega) (by omega) (by omega)),
    (colLoop_val hN (fun k hk => by have := mem_intRange.mp hk; omega)
      (intRange_nodup 1 (N - 2)) (mem_intRange.mpr (by omega))).1,
    rowLoop_pres (fun k hk => ?_)]
  have hkb := mem_intRange.mp hk
  exact ⟨IX_ne (by omega) (by omega) (by omega) (by omega) (by omega),
    IX_ne (by omega) (by omega) (by omega) (by omega) (by omega)⟩

theorem sb_right {N : ℕ} (b : ℕ) (hN : 3 ≤ N) (x : Field) {j : ℤ} (hj1 : 1 ≤ j)
    (hj2 : j ≤ (N : ℤ) - 2) :
    SetBoundary N b x (IX N ((N : ℤ) - 1) j) =
      (if b = 1 then -(x (IX N 1 j)) else x (IX N ((N : ℤ) - 2) j)) := by
  have hN3 : (3 : ℤ) ≤ (N : ℤ) := by exact_mod_cast hN
  unfold SetBoundary edgeLoops
  rw [corners_pres (IX_ne (by omega) (by omega) (by omega) (by omega) (by omega))
      (IX_ne (by omega) (by omega) (by omega) (by omega) (by omega))
      (IX_ne (by omega) (by omega) (by omega) (by omega) (by omega))
      (IX_ne (by omega) (by omega) (by omega) (by omega) (by omega)),
    (colLoop_val hN (fun k hk => by have := mem_intRange.mp hk; omega)
      (intRange_nodup 1 (N - 2)) (mem_intRange.mpr (by omega))).2,
    rowLoop_pres (fun k hk => ?_), rowLoop_pres (fun k hk => ?_)]
  · have hkb := mem_intRange.mp hk
    exact ⟨IX_ne (by omega) (by omega) (by omega) (by omega) (by omega),
      IX_ne (by omega) (by omega) (by omega) (by omega) (by omega)⟩
  · have hkb := mem_intRange.mp hk
    exact ⟨IX_ne (by omega) (by omega) (by omega) (by omega) (by omega),
      IX_ne (by omega) (by omega) (by omega) (by omega) (by omega)⟩

theorem sb_c00 {N : ℕ} (b : ℕ) (hN : 3 ≤ N) (x : Field) :
    SetBoundary N b x (IX N 0 0) =
      (1 / 2 : ℚ) * ((if b = 2 then -(x (IX N 1 1)) else x (IX N 1 1)) +
        (if b = 1 then -(x (IX N 1 1)) else x (IX N 1 1))) := by
  have hN3 : (3 : ℤ) ≤ (N : ℤ) := by exact_mod_cast hN
  unfold SetBoundary edgeLoops
  rw [corners_c00 hN,
    colLoop_pres (n := IX N 1 0) (fun k hk => ?_),
    (rowLoop_val (b := b) hN (fun k hk => by have := mem_intRange.mp hk; omega)
      (intRange_nodup 1 (N - 2)) (i := 1) (mem_intRange.mpr (by omega))).1,
    (colLoop_val (b := b) hN (fun k hk => by have := mem_intRange.mp hk; omega)
      (intRange_nodup 1 (N - 2)) (j := 1) (mem_intRange.mpr (by omega))).1,
    rowLoop_pres (n := IX N 1 1) (fun k hk => ?_)]
  · have hkb := mem_intRange.mp hk
    exact ⟨IX_ne (by omega) (by omega) (by omega) (by omega) (by omega),
      IX_ne (by omega) (by omega) (by omega) (by omega) (by omega)⟩
  · have hkb := mem_intRange.mp hk
    exact ⟨IX_ne (by omega) (by omega) (by omega) (by omega) (by omega),
      IX_ne (by omega) (by omega) (by omega) (by omega) (by omega)⟩

theorem sb_c0N {N : ℕ} (b : ℕ) (hN : 3 ≤ N) (x : Field) :
    SetBoundary N b x (IX N 0 ((N : ℤ) - 1)) =
      (1 / 2 : ℚ) *
        ((if b = 2 then -(x (IX N 1 ((N : ℤ) - 2))) else x (IX N 1 ((N : ℤ) - 2))) +
          (if b = 1 then -(x (IX N 1 ((N : ℤ) - 2))) else x (IX N 1 ((N : ℤ) - 2)))) := by
  have hN3 : (3 : ℤ) ≤ (N : ℤ) := by exact_mod_cast hN
  unfold SetBoundary edgeLoops
  rw [corners_c0N hN,
    colLoop_pres (n := IX N 1 ((N : ℤ) - 1)) (fun k hk => ?_),
    (rowLoop_val (b := b) hN (fun k hk => by have := mem_intRange.mp hk; omega)
      (intRange_nodup 1 (N - 2)) (i := 1) (mem_intRange.mpr (by omega))).2,
    (colLoop_val (b := b) hN (fun k hk => by have := mem_intRange.mp hk; omega)
      (intRange_nodup 1 (N - 2)) (j := (N : ℤ) - 2) (mem_intRange.mpr (by omega))).1,
    rowLoop_pres (n := IX N 1 ((N : ℤ) - 2)) (fun k hk => ?_)]
  · have hkb := mem_intRange.mp hk
    exact ⟨IX_ne (by omega) (by omega) (by omega) (by omega) (by omega),
      IX_ne (by omega) (by omega) (by omega) (by omega) (by omega)⟩
  · have hkb := mem_intRange.mp hk
    exact ⟨IX_ne (by omega) (by omega) (by omega) (by omega) (by omega),
      IX_ne (by omega) (by omega) (by omega) (by omega) (by omega)⟩

theorem sb_cN0 {N : ℕ} (b : ℕ) (hN : 3 ≤ N) (x : Field) :
    SetBoundary N b x (IX N ((N : ℤ) - 1) 0) =
      (1 / 2 : ℚ) *
        ((if b = 2 then -(x (IX N ((N : ℤ) - 2) 1)) else x (IX N ((N : ℤ) - 2) 1)) +
          (if b = 1 then -(x (IX N 1 1)) else x (IX N ((N : ℤ) - 2) 1))) := by
  have hN3 : (3 : ℤ) ≤ (N : ℤ) := by exact_mod_cast hN
  unfold SetBoundary edgeLoops
  rw [corners_cN0 hN,
    colLoop_pres (n := IX N ((N : ℤ) - 2) 0) (fun k hk => ?_),
    (rowLoop_val (b := b) hN (fun k hk => by have := mem_intRange.mp hk; omega)
      (intRange_nodup 1 (N - 2)) (i := (N : ℤ) - 2) (mem_intRange.mpr (by omega))).1,
    (colLoop_val (b := b) hN (fun k hk => by have := mem_intRange.mp hk; omega)
      (intRange_nodup 1 (N - 2)) (j := 1) (mem_intRange.mpr (by omega))).2,
    rowLoop_pres (n := IX N 1 1) (fun k hk => ?_),
    rowLoop_pres (n := IX N ((N : ℤ) - 2) 1) (fun k hk => ?_)]
  · have hkb := mem_intRange.mp hk
    exact ⟨IX_ne (by omega) (by omega) (by omega) (by omega) (by omega),
      IX_ne (by omega) (by omega) (by omega) (by omega) (by omega)⟩
  · have hkb := mem_intRange.mp hk
    exact ⟨IX_ne (by omega) (by omega) (by omega) (by omega) (by omega),
      IX_ne (by omega) (by omega) (by omega) (by omega) (by omega)⟩
  · have hkb := mem_intRange.mp hk
    exact ⟨IX_ne (by omega) (by omega) (by omega) (by omega) (by omega),
      IX_ne (by omega) (by omega) (by omega) (by omega) (by omega)⟩

theorem sb_cNN {N : ℕ} (b : ℕ) (hN : 3 ≤ N) (x : Field) :
    SetBoundary N b x (IX N ((N : ℤ) - 1) ((N : ℤ) - 1)) =
      (1 / 2 : ℚ) *
        ((if b = 2 then -(x (IX N ((N : ℤ) - 2) ((N : ℤ) - 2)))
            else x (IX N ((N : ℤ) - 2) ((N : ℤ) - 2))) +
          (if b = 1 then -(x (IX N 1 ((N : ℤ) - 2)))
            else x (IX N ((N : ℤ) - 2) ((N : ℤ) - 2)))) := by
  have hN3 : (3 : ℤ) ≤ (N : ℤ) := by exact_mod_cast hN
  unfold SetBoundary edgeLoops
  rw [corners_cNN hN,
    colLoop_pres (n := IX N ((N : ℤ) - 2) ((N : ℤ) - 1)) (fun k hk => ?_),
    (rowLoop_val (b := b) hN (fun k hk => by have := mem_intRange.mp hk; omega)
      (intRange_nodup 1 (N - 2)) (i := (N : ℤ) - 2) (mem_intRange.mpr (by omega))).2,
    (colLoop_val (b := b) hN (fun k hk => by have := mem_intRange.mp hk; omega)
      (intRange_nodup 1 (N - 2)) (j := (N : ℤ) - 2) (mem_intRange.mpr (by omega))).2,
    rowLoop_pres (n := IX N 1 ((N : ℤ) - 2)) (fun k hk => ?_),
    rowLoop_pres (n := IX N ((N : ℤ) - 2) ((N : ℤ) - 2)) (fun k hk => ?_)]
  · have hkb := mem_intRange.mp hk
    exact ⟨IX_ne (by omega) (by omega) (by omega) (by omega) (by omega),
      IX_ne (by omega) (by omega) (by omega) (by omega) (by omega)⟩
  · have hkb := mem_intRange.mp hk
    exact ⟨IX_ne (by omega) (by omega) (by omega) (by omega) (by omega),
      IX_ne (by omega) (by omega) (by omega) (by omega) (by omega)⟩
  · have hkb := mem_intRange.mp hk
    exact ⟨IX_ne (by omega) (by omega) (by omega) (by omega) (by omega),
      IX_ne (by omega) (by omega) (by omega) (by omega) (by omega)⟩

theorem sb_far {N : ℕ} (b : ℕ) (hN : 3 ≤ N) (x : Field) {n : ℤ}
    (h : n < 0 ∨ (N : ℤ) * N ≤ n) : SetBoundary N b x n = x n := by
  have hN3 : (3 : ℤ) ≤ (N : ℤ) := by exact_mod_cast hN
  have hfar : ∀ a c : ℤ, 0 ≤ a → a < N → 0 ≤ c → c < N → n ≠ IX N a c := by
    intro a c ha haN hc hcN he
    have hb := IX_bounds ha haN hc hcN
    rcases h with h | h
    · rw [he] at h; linarith [hb.1]
    · rw [he] at h; linarith [hb.2]
  unfold SetBoundary edgeLoops
  rw [corners_pres (hfar 0 0 (by omega) (by omega) (by omega) (by omega))
      (hfar 0 ((N : ℤ) - 1) (by omega) (by omega) (by omega) (by omega))
      (hfar ((N : ℤ) - 1) 0 (by omega) (by omega) (by omega) (by omega))
      (hfar ((N : ℤ) - 1) ((N : ℤ) - 1) (by omega) (by omega) (by omega) (by omega)),
    colLoop_pres (fun k hk => ?_), rowLoop_pres (fun k hk => ?_)]
  · have hkb := mem_intRange.mp hk
    exact ⟨hfar k 0 (by omega) (by omega) (by omega) (by omega),
      hfar k ((N : ℤ) - 1) (by omega) (by omega) (by omega) (by omega)⟩
  · have hkb := mem_intRange.mp hk
    exact ⟨hfar 0 k (by omega) (by omega) (by omega) (by omega),
      hfar ((N : ℤ) - 1) k (by omega) (by omega) (by omega) (by omega)⟩

theorem sb_idem_at {N : ℕ} (b : ℕ) (hN : 3 ≤ N) (x : Field) {i j : ℤ} (hi0 : 0 ≤ i)
    (hiN : i < N) (hj0 : 0 ≤ j) (hjN : j < N) :
    SetBoundary N b (SetBoundary N b x) (IX N i j) = SetBoundary N b x (IX N i j) := by
  have hN3 : (3 : ℤ) ≤ (N : ℤ) := by exact_mod_cast hN
  have hone : (1 : ℤ) ≤ 1 ∧ (1 : ℤ) ≤ (N : ℤ) - 2 := by omega
  have hri : i = 0 ∨ i = (N : ℤ) - 1 ∨ (1 ≤ i ∧ i ≤ (N : ℤ) - 2) := by omega
  have hrj : j = 0 ∨ j = (N : ℤ) - 1 ∨ (1 ≤ j ∧ j ≤ (N : ℤ) - 2) := by omega
  rcases hri with rfl | rfl | hi <;> rcases hrj with rfl | rfl | hj
  · rw [sb_c00 b hN (SetBoundary N b x), sb_interior b hN x hone.1 hone.2 hone.1 hone.2,
      sb_c00 b hN x]
  · rw [sb_c0N b hN (SetBoundary N b x),
      sb_interior b hN x hone.1 hone.2 (by omega) (by omega), sb_c0N b hN x]
  · rw [sb_left b hN (SetBoundary N b x) hj.1 hj.2,
      sb_interior b hN x hone.1 hone.2 hj.1 hj.2, sb_left b hN x hj.1 hj.2]
  · rw [sb_cN0 b hN (SetBoundary N b x),
      sb_interior b hN x (by omega) (by omega) hone.1 hone.2,
      sb_interior b hN x hone.1 hone.2 hone.1 hone.2, sb_cN0 b hN x]
  · rw [sb_cNN b hN (SetBoundary N b x),
      sb_interior b hN x (by omega) (by omega) (by omega) (by omega),
      sb_interior b hN x hone.1 hone.2 (by omega) (by omega), sb_cNN b hN x]
  · rw [sb_right b hN (SetBoundary N b x) hj.1 hj.2,
      sb_interior b hN x hone.1 hone.2 hj.1 hj.2,
      sb_interior b hN x (by omega) (by omega) hj.1 hj.2, sb_right b hN x hj.1 hj.2]
  · rw [sb_top b hN (SetBoundary N b x) hi.1 hi.2,
      sb_interior b hN x hi.1 hi.2 hone.1 hone.2, sb_top b hN x hi.1 hi.2]
  · rw [sb_bottom b hN (SetBoundary N b x) hi.1 hi.2,
      sb_interior b hN x hi.1 hi.2 (by omega) (by omega), sb_bottom b hN x hi.1 hi.2]
  · rw [sb_interior b hN (SetBoundary N b x) hi.1 hi.2 hj.1 hj.2]

/-- Claim C10: `SetBoundary` is idempotent — for every field kind `b` and
every field of side `N ≥ 3`, applying `SetBoundary` twice in succession
produces the same field as applying it once (it writes only boundary cells
and reads only cells it does not write). -/
theorem SetBoundary_idempotent (N b : ℕ) (x : Field) (hN : 3 ≤ N) :
    SetBoundary N b (SetBoundary N b x) = SetBoundary N b x := by
  have hN3 : (3 : ℤ) ≤ (N : ℤ) := by exact_mod_cast hN
  funext n
  by_cases hn : 0 ≤ n ∧ n < (N : ℤ) * N
  · obtain ⟨hn0, hnN⟩ := hn
    have hNpos : (0 : ℤ) < N := by omega
    have hdec : n = IX N (n % (N : ℤ)) (n / (N : ℤ)) := by
      unfold IX
      have h1 := Int.emod_add_ediv n (N : ℤ)
      have h2 : (n / (N : ℤ)) * (N : ℤ) = (N : ℤ) * (n / (N : ℤ)) := mul_comm _ _
      linarith
    rw [hdec]
    exact sb_idem_at b hN x (Int.emod_nonneg n (by omega)) (Int.emod_lt_of_pos n hNpos)
      (Int.ediv_nonneg hn0 hNpos.le) ((Int.ediv_lt_iff_lt_mul hNpos).mpr hnN)
  · have h' : n < 0 ∨ (N : ℤ) * N ≤ n := by
      rcases not_and_or.mp hn with h | h
      · exact Or.inl (lt_of_not_le h)
      · exact Or.inr (le_of_not_lt h)
    rw [sb_far b hN _ h', sb_far b hN x h']

/-- Witness for C10 at `N = 3`, `b = 1`, a concrete field. -/
theorem SetBoundary_idempotent_witness :
    SetBoundary 3 1 (SetBoundary 3 1 wF) = SetBoundary 3 1 wF :=
  SetBoundary_idempotent 3 1 wF (by norm_num)

/-- Claim C8: after `SetBoundary` on a field of side `N ≥ 3`, each corner
holds exactly the average of its two adjacent edge neighbors, for every
field kind `b`. -/
theorem SetBoundary_corner_average (N b : ℕ) (x : Field) (hN : 3 ≤ N) :
    SetBoundary N b x (IX N 0 0) =
        (1 / 2 : ℚ) * (SetBoundary N b x (IX N 1 0) + SetBoundary N b x (IX N 0 1)) ∧
      SetBoundary N b x (IX N 0 ((N : ℤ) - 1)) =
        (1 / 2 : ℚ) *
          (SetBoundary N b x (IX N 1 ((N : ℤ) - 1)) + SetBoundary N b x (IX N 0 ((N : ℤ) - 2))) ∧
      SetBoundary N b x (IX N ((N : ℤ) - 1) 0) =
        (1 / 2 : ℚ) *
          (SetBoundary N b x (IX N ((N : ℤ) - 2) 0) + SetBoundary N b x (IX N ((N : ℤ) - 1) 1)) ∧
      SetBoundary N b x (IX N ((N : ℤ) - 1) ((N : ℤ) - 1)) =
        (1 / 2 : ℚ) *
          (SetBoundary N b x (IX N ((N : ℤ) - 2) ((N : ℤ) - 1)) +
            SetBoundary N b x (IX N ((N : ℤ) - 1) ((N : ℤ) - 2))) := by
  have hN3 : (3 : ℤ) ≤ (N : ℤ) := by exact_mod_cast hN
  unfold SetBoundary
  refine ⟨?_, ?_, ?_, ?_⟩
  · have h1 : corners N (edgeLoops N b x) (IX N 1 0) = edgeLoops N b x (IX N 1 0) :=
      corners_pres (IX_ne (by omega) (by omega) (by omega) (by omega) (by omega))
        (IX_ne (by omega) (by omega) (by omega) (by omega) (by omega))
        (IX_ne (by omega) (by omega) (by omega) (by omega) (by omega))
        (IX_ne (by omega) (by omega) (by omega) (by omega) (by omega))
    have h2 : corners N (edgeLoops N b x) (IX N 0 1) = edgeLoops N b x (IX N 0 1) :=
      corners_pres (IX_ne (by omega) (by omega) (by omega) (by omega) (by omega))
        (IX_ne (by omega) (by omega) (by omega) (by omega) (by omega))
        (IX_ne (by omega) (by omega) (by omega) (by omega) (by omega))
        (IX_ne (by omega) (by omega) (by omega) (by omega) (by omega))
    rw [corners_c00 hN, h1, h2]
  · have h1 : corners N (edgeLoops N b x) (IX N 1 ((N : ℤ) - 1)) =
        edgeLoops N b x (IX N 1 ((N : ℤ) - 1)) :=
      corners_pres (IX_ne (by omega) (by omega) (by omega) (by omega) (by omega))
        (IX_ne (by omega) (by omega) (by omega) (by omega) (by omega))
        (IX_ne (by omega) (by omega) (by omega) (by omega) (by omega))
        (IX_ne (by omega) (by omega) (by omega) (by omega) (by omega))
    have h2 : corners N (edgeLoops N b x) (IX N 0 ((N : ℤ) - 2)) =
        edgeLoops N b x (IX N 0 ((N : ℤ) - 2)) :=
      corners_pres (IX_ne (by omega) (by omega) (by omega) (by omega) (by omega))
        (IX_ne (by omega) (by omega) (by omega) (by omega) (by omega))
        (IX_ne (by omega) (by omega) (by omega) (by omega) (by omega))
        (IX_ne (by omega) (by omega) (by omega) (by omega) (by omega))
    rw [corners_c0N hN, h1, h2]
  · have h1 : corners N (edgeLoops N b x) (IX N ((N : ℤ) - 2) 0) =
        edgeLoops N b x (IX N ((N : ℤ) - 2) 0) :=
      corners_pres (IX_ne (by omega) (by omega) (by omega) (by omega) (by omega))
        (IX_ne (by omega) (by omega) (by omega) (by omega) (by omega))
        (IX_ne (by omega) (by omega) (by omega) (by omega) (by omega))
        (IX_ne (by omega) (by omega) (by omega) (by omega) (by omega))
    have h2 : corners N (edgeLoops N b x) (IX N ((N : ℤ) - 1) 1) =
        edgeLoops N b x (IX N ((N : ℤ) - 1) 1) :=
      corners_pres (IX_ne (by omega) (by omega) (by omega) (by omega) (by omega))
        (IX_ne (by omega) (by omega) (by omega) (by omega) (by omega))
        (IX_ne (by omega) (by omega) (by omega) (by omega) (by omega))
        (IX_ne (by omega) (by omega) (by omega) (by omega) (by omega))
    rw [corners_cN0 hN, h1, h2]
  · have h1 : corners N (edgeLoops N b x) (IX N ((N : ℤ) - 2) ((N : ℤ) - 1)) =
        edgeLoops N b x (IX N ((N : ℤ) - 2) ((N : ℤ) - 1)) :=
      corners_pres (IX_ne (by omega) (by omega) (by omega) (by omega) (by omega))
        (IX_ne (by omega) (by omega) (by omega) (by omega) (by omega))
        (IX_ne (by omega) (by omega) (by omega) (by omega) (by omega))
        (IX_ne (by omega) (by omega) (by omega) (by omega) (by omega))
    have h2 : corners N (edgeLoops N b x) (IX N ((N : ℤ) - 1) ((N : ℤ) - 2)) =
        edgeLoops N b x (IX N ((N : ℤ) - 1) ((N : ℤ) - 2)) :=
      corners_pres (IX_ne (by omega) (by omega) (by omega) (by omega) (by omega))
        (IX_ne (by omega) (by omega) (by omega) (by omega) (by omega))
        (IX_ne (by omega) (by omega) (by omega) (by omega) (by omega))
        (IX_ne (by omega) (by omega) (by omega) (by omega) (by omega))
    rw [corners_cNN hN, h1, h2]

/-- Witness for C8 at `N = 3`, `b = 0`, a concrete field. -/
theorem SetBoundary_corner_average_witness :
    SetBoundary 3 0 wF (IX 3 0 0) =
      (1 / 2 : ℚ) * (SetBoundary 3 0 wF (IX 3 1 0) + SetBoundary 3 0 wF (IX 3 0 1)) :=
  (SetBoundary_corner_average 3 0 wF (by norm_num)).1

/-- Claim C3 (the code deviates): at `N = 4`, field kind `b = 1`
(X_VELOCITY) and a field with `f(1,1) = 1`, `f(2,1) = 2`, the right edge
assignment of the source, `x[IX(Size-1,j)] = b==1 ? -x[IX(1,j)] : x[IX(Size-2,j)]`
stores `-f(1,1) = -1` at `(3,1)`, so the right edge does not mirror the
adjacent interior column `N-2` (which holds `2` there): the claimed
`field[N-1,j] == -field[N-2,j]` fails. -/
theorem SetBoundary_right_edge_mismatch :
    SetBoundary 4 1 exF3 (IX 4 3 1) = -(exF3 (IX 4 1 1)) ∧
      SetBoundary 4 1 exF3 (IX 4 2 1) = exF3 (IX 4 2 1) ∧
      SetBoundary 4 1 exF3 (IX 4 3 1) ≠ -(SetBoundary 4 1 exF3 (IX 4 2 1)) := by
  decide

/-! ## The linear solver against its specification (C4, C9) -/

theorem gsCell_eq (N : ℕ) (a c : ℚ) (x0 x : Field) (i j : ℤ) :
    gsCell N a (1 / c) x0 x i j = gsCellSpec N a c x0 x i j := by
  unfold gsCell gsCellSpec
  rw [mul_one_div]

theorem gsSweep_eq (N : ℕ) (a c : ℚ) (x0 x : Field) :
    gsSweep N a (1 / c) x0 x = gsSweepSpec N a c x0 x := by
  unfold gsSweep gsSweepSpec
  have hcell : ∀ j : ℤ, (fun (acc2 : Field) (i : ℤ) => gsCell N a (1 / c) x0 acc2 i j) =
      (fun (acc2 : Field) (i : ℤ) => gsCellSpec N a c x0 acc2 i j) := by
    intro j
    funext acc2 i
    exact gsCell_eq N a c x0 acc2 i j
  have hstep : (fun (acc : Field) (j : ℤ) =>
        (intRange 1 (N - 2)).foldl (fun acc2 i => gsCell N a (1 / c) x0 acc2 i j) acc) =
      (fun (acc : Field) (j : ℤ) =>
        (intRange 1 (N - 2)).foldl (fun acc2 i => gsCellSpec N a c x0 acc2 i j) acc) := by
    funext acc j
    rw [hcell j]
  rw [hstep]

theorem lsIter_eq_iterate (N b : ℕ) (a cRecip : ℚ) (x0 : Field) (t : ℕ) (x : Field) :
    lsIter N b a cRecip x0 t x =
      (fun y => SetBoundary N b (gsSweep N a cRecip x0 y))^[t] x := by
  induction t generalizing x with
  | zero => rfl
  | succ n ih =>
    rw [Function.iterate_succ_apply]
    simp only [lsIter]
    exact ih (SetBoundary N b (gsSweep N a cRecip x0 x))

/-- Claim C4: `LinearSolve` performs exactly `N` full in-place Gauss-Seidel
sweeps over the interior, each cell update being
`x[i,j] = (x0[i,j] + a*(x[i+1,j] + x[i-1,j] + x[i,j+1] + x[i,j-1])) / c` in
place (later cells see already-updated neighbors), with `SetBoundary` of
kind `b` applied once after every full sweep, the iteration count fixed at
`N` regardless of convergence.  Stated as equality with the sweep-by-sweep
specification `LinearSolveSpec`. -/
theorem LinearSolve_eq_spec (N b : ℕ) (x x0 : Field) (a c : ℚ) :
    LinearSolve N b x x0 a c = LinearSolveSpec N b x x0 a c := by
  unfold LinearSolve LinearSolveSpec
  rw [lsIter_eq_iterate]
  have h : (fun y => SetBoundary N b (gsSweep N a (1 / c) x0 y)) =
      (fun y => SetBoundary N b (gsSweepSpec N a c x0 y)) := by
    funext y
    rw [gsSweep_eq]
  rw [h]

/-- Claim C9: `Diffuse` computes `a = dt * diff * (N-2)^2` and hands
`(b, x, x0)` to `LinearSolve` with coefficients `(a, 1 + 4*a)`, performing
no other mutation of the fields. -/
theorem Diffuse_eq_LinearSolve (N b : ℕ) (x x0 : Field) (diff dt : ℚ) :
    Diffuse N b x x0 diff dt =
      LinearSolve N b x x0 (dt * diff * ((N : ℚ) - 2) ^ 2)
        (1 + 4 * (dt * diff * ((N : ℚ) - 2) ^ 2)) := by
  unfold Diffuse
  have h : dt * diff * ((N : ℚ) - 2) * ((N : ℚ) - 2) = dt * diff * ((N : ℚ) - 2) ^ 2 := by
    ring
  rw [h]

/-! ## The projection step against its specification (C5) -/

theorem foldl_pair {α : Type _} (f g : Field → α → Field)
    (step : Field × Field → α → Field × Field)
    (hstep : ∀ pd x, step pd x = (f pd.1 x, g pd.2 x)) (l : List α) (pd : Field × Field) :
    l.foldl step pd = (l.foldl f pd.1, l.foldl g pd.2) := by
  induction l generalizing pd with
  | nil => rfl
  | cons a t ih =>
    simp only [List.foldl_cons]
    rw [hstep, ih]

theorem divPLoop_split (N : ℕ) (velocX velocY p dv : Field) :
    divPLoop N velocX velocY p dv = (pZeroLoop N p, divLoop N velocX velocY dv) := by
  unfold divPLoop pZeroLoop divLoop
  refine foldl_pair
    (fun acc j => (intRange 1 (N - 2)).foldl (fun acc2 i => upd acc2 (IX N i j) 0) acc)
    (fun acc j =>
      (intRange 1 (N - 2)).foldl
        (fun acc2 i => upd acc2 (IX N i j) (divVal N velocX velocY i j)) acc)
    _ (fun pd j => ?_) _ (p, dv)
  exact foldl_pair (fun acc2 i => upd acc2 (IX N i j) 0)
    (fun acc2 i => upd acc2 (IX N i j) (divVal N velocX velocY i j)) _ (fun pd2 i => rfl) _ pd

/-- Claim C5: `Project` computes the interior divergence
`div[i,j] = -0.5*(Vx[i+1,j]-Vx[i-1,j] + Vy[i,j+1]-Vy[i,j-1])/N` and zeroes
`p`, applies `SetBoundary` of kind 0 to `div` and `p`, runs `LinearSolve`
on `(p, div)` with `a = 1`, `c = 6`, subtracts the pressure gradient
(`Vx[i,j] -= 0.5*(p[i+1,j]-p[i-1,j])*N`, `Vy[i,j] -= 0.5*(p[i,j+1]-p[i,j-1])*N`),
and finally applies `SetBoundary` to `Vx` with kind 1 and `Vy` with kind 2,
in that order.  Stated as equality with the step-by-step specification
`ProjectSpec`. -/
theorem Project_eq_spec (N : ℕ) (velocX velocY p dv : Field) :
    Project N velocX velocY p dv = ProjectSpec N velocX velocY p dv := by
  simp only [Project, ProjectSpec, divPLoop_split]

/-! ## Semi-Lagrangian advection (C6, C7) -/

theorem ratFloor_eq (q : ℚ) : q.floor = ⌊q⌋ := by
  rw [Rat.floor_def', Rat.floor_def]

theorem clampQ_bounds {v lo hi : ℚ} (h : lo ≤ hi) :
    lo ≤ clampQ v lo hi ∧ clampQ v lo hi ≤ hi := by
  unfold clampQ
  split_ifs with h1 h2
  · exact ⟨le_refl lo, h⟩
  · exact ⟨le_of_not_lt h1, le_of_lt h2⟩
  · exact ⟨h, le_refl hi⟩

theorem foldl_upd_pure_pres (g : ℤ → ℤ) (V : ℤ → ℚ) (l : List ℤ) (f : Field) {n : ℤ}
    (h : ∀ a ∈ l, n ≠ g a) :
    (l.foldl (fun acc a => upd acc (g a) (V a)) f) n = f n := by
  induction l generalizing f with
  | nil => rfl
  | cons a t ih =>
    simp only [List.foldl_cons]
    rw [ih _ (fun a' ha' => h a' (List.mem_cons_of_mem a ha')),
      upd_ne _ _ _ (h a (List.mem_cons_self a t))]

theorem foldl_upd_pure_val (g : ℤ → ℤ) (V : ℤ → ℚ) :
    ∀ (l : List ℤ) (f : Field) (a0 : ℤ), a0 ∈ l → l.Nodup →
      (∀ a ∈ l, g a = g a0 → a = a0) →
      (l.foldl (fun acc a => upd acc (g a) (V a)) f) (g a0) = V a0 := by
  intro l
  induction l with
  | nil => intro f a0 ha; cases ha
  | cons a t ih =>
    intro f a0 ha hnd hinj
    simp only [List.foldl_cons]
    rcases List.mem_cons.mp ha with rfl | hat
    · have hnot : a0 ∉ t := (List.nodup_cons.mp hnd).1
      rw [foldl_upd_pure_pres g V t _ (fun a' ha' he => ?_), upd_same]
      exact hnot ((hinj a' (List.mem_cons_of_mem a0 ha') he.symm) ▸ ha')
    · exact ih _ a0 hat (List.nodup_cons.mp hnd).2
        (fun a' ha' => hinj a' (List.mem_cons_of_mem a ha'))

theorem nestedFold_pres (N : ℕ) (V : ℤ → ℤ → ℚ) (f : Field) {n : ℤ}
    (h : ∀ jc ∈ intRange 1 (N - 2), ∀ ic ∈ intRange 1 (N - 2), n ≠ IX N ic jc) :
    ((intRange 1 (N - 2)).foldl
        (fun acc jc =>
          (intRange 1 (N - 2)).foldl (fun acc2 ic => upd acc2 (IX N ic jc) (V ic jc)) acc) f)
      n = f n := by
  refine foldl_inv (fun fld : Field => fld n = f n) _ _ _ rfl ?_
  intro acc jc hjc hacc
  have hacc2 : acc n = f n := hacc
  show ((intRange 1 (N - 2)).foldl (fun acc2 ic => upd acc2 (IX N ic jc) (V ic jc)) acc) n =
    f n
  rw [foldl_upd_pure_pres (fun ic => IX N ic jc) (fun ic => V ic jc) _ _
    (fun ic hic => h jc hjc ic hic), hacc2]

theorem nestedFold_val (N : ℕ) (hN : 3 ≤ N) (V : ℤ → ℤ → ℚ) (f : Field) {i j : ℤ}
    (hi : 1 ≤ i) (hi2 : i ≤ (N : ℤ) - 2) (hj : 1 ≤ j) (hj2 : j ≤ (N : ℤ) - 2) :
    ((intRange 1 (N - 2)).foldl
        (fun acc jc =>
          (intRange 1 (N - 2)).foldl (fun acc2 ic => upd acc2 (IX N ic jc) (V ic jc)) acc) f)
      (IX N i j) = V i j := by
  have hN3 : (3 : ℤ) ≤ (N : ℤ) := by exact_mod_cast hN
  have main : ∀ l : List ℤ, (∀ k ∈ l, 1 ≤ k ∧ k ≤ (N : ℤ) - 2) → l.Nodup → j ∈ l →
      ∀ f2 : Field,
        (l.foldl
            (fun acc jc =>
              (intRange 1 (N - 2)).foldl (fun acc2 ic => upd acc2 (IX N ic jc) (V ic jc)) acc)
            f2) (IX N i j) =
          V i j := by
    intro l
    induction l with
    | nil => intro _ _ hjl; cases hjl
    | cons a t ih =>
      intro hl hnd hjl f2
      simp only [List.foldl_cons]
      rcases List.mem_cons.mp hjl with rfl | hjt
      · have hnot : j ∉ t := (List.nodup_cons.mp hnd).1
        have hrow : ((intRange 1 (N - 2)).foldl
            (fun acc2 ic => upd acc2 (IX N ic j) (V ic j)) f2) (IX N i j) = V i j := by
          refine foldl_upd_pure_val (fun ic => IX N ic j) (fun ic => V ic j)
            (intRange 1 (N - 2)) f2 i (mem_intRange.mpr (by omega))
            (intRange_nodup 1 (N - 2)) (fun a' ha' he => ?_)
          have ha'b := mem_intRange.mp ha'
          exact (IX_inj (by omega) (by omega) (by omega) (by omega) he).1
        refine foldl_inv (fun fld : Field => fld (IX N i j) = V i j) _ t _ hrow
          (fun acc jc hjc hacc => ?_)
        have hacc2 : acc (IX N i j) = V i j := hacc
        have hjcb := hl jc (List.mem_cons_of_mem j hjc)
        have hjcj : jc ≠ j := fun he => hnot (he ▸ hjc)
        show ((intRange 1 (N - 2)).foldl (fun acc2 ic => upd acc2 (IX N ic jc) (V ic jc)) acc)
            (IX N i j) = V i j
        rw [foldl_upd_pure_pres (fun ic => IX N ic jc) (fun ic => V ic jc)
          (intRange 1 (N - 2)) acc (fun a' ha' => ?_), hacc2]
        have ha'b := mem_intRange.mp ha'
        exact IX_ne (by omega) (by omega) (by omega) (by omega) (by tauto)
      · exact ih (fun k hk => hl k (List.mem_cons_of_mem a hk)) (List.nodup_cons.mp hnd).2
          hjt _
  exact main (intRange 1 (N - 2)) (fun k hk => by have := mem_intRange.mp hk; omega)
    (intRange_nodup 1 (N - 2)) (mem_intRange.mpr (by omega)) f

theorem advLoop_val (N : ℕ) (hN : 3 ≤ N) (d d0 vX vY : Field) (dt : ℚ) {i j : ℤ}
    (hi : 1 ≤ i) (hi2 : i ≤ (N : ℤ) - 2) (hj : 1 ≤ j) (hj2 : j ≤ (N : ℤ) - 2) :
    advLoop N d d0 vX vY dt (IX N i j) = advCellVal N d0 vX vY dt i j := by
  unfold advLoop
  exact nestedFold_val N hN (fun ic jc => advCellVal N d0 vX vY dt ic jc) d hi hi2 hj hj2

theorem Advect_interior (N b : ℕ) (hN : 3 ≤ N) (d d0 vX vY : Field) (dt : ℚ) {i j : ℤ}
    (hi : 1 ≤ i) (hi2 : i ≤ (N : ℤ) - 2) (hj : 1 ≤ j) (hj2 : j ≤ (N : ℤ) - 2) :
    Advect N b d d0 vX vY dt (IX N i j) = advCellVal N d0 vX vY dt i j := by
  unfold Advect
  rw [sb_interior b hN _ hi hi2 hj hj2, advLoop_val N hN d d0 vX vY dt hi hi2 hj hj2]

/-- Claim C6: for arbitrary velocity values and `dt`, the back-traced
coordinates of `Advect` are clamped into `[0.5, (N-2)+0.5] = [0.5, N-1.5]`,
so the stencil indices `i0 = floor(x)`, `i1 = i0+1`, `j0 = floor(y)`,
`j1 = j0+1` all lie in `[0, N-1]` and every bilinear-stencil read of `d0`
(any index pair drawn from `{i0, i1} x {j0, j1}`) has a linear offset
inside the `N*N` field bounds. -/
theorem Advect_backtrace_bounded (N : ℕ) (hN : 3 ≤ N) (dt vx vy : ℚ) (i j : ℤ) :
    ((1 / 2 : ℚ) ≤ advCoord N dt vx i ∧ advCoord N dt vx i ≤ ((N : ℚ) - 2) + 1 / 2) ∧
      ((1 / 2 : ℚ) ≤ advCoord N dt vy j ∧ advCoord N dt vy j ≤ ((N : ℚ) - 2) + 1 / 2) ∧
      (0 ≤ (advCoord N dt vx i).floor ∧ (advCoord N dt vx i).floor + 1 ≤ (N : ℤ) - 1) ∧
      (0 ≤ (advCoord N dt vy j).floor ∧ (advCoord N dt vy j).floor + 1 ≤ (N : ℤ) - 1) ∧
      (∀ a c : ℤ, (advCoord N dt vx i).floor ≤ a → a ≤ (advCoord N dt vx i).floor + 1 →
        (advCoord N dt vy j).floor ≤ c → c ≤ (advCoord N dt vy j).floor + 1 →
        0 ≤ IX N a c ∧ IX N a c < (N : ℤ) * N) := by
  have hN3 : (3 : ℤ) ≤ (N : ℤ) := by exact_mod_cast hN
  have hNQ : (3 : ℚ) ≤ (N : ℚ) := by exact_mod_cast hN
  have hlohi : (1 / 2 : ℚ) ≤ ((N : ℚ) - 2) + 1 / 2 := by linarith
  have hfb : ∀ q : ℚ, (1 / 2 : ℚ) ≤ q → q ≤ ((N : ℚ) - 2) + 1 / 2 →
      0 ≤ q.floor ∧ q.floor + 1 ≤ (N : ℤ) - 1 := by
    intro q h1 h2
    rw [ratFloor_eq]
    constructor
    · exact Int.le_floor.mpr (by push_cast; linarith)
    · have hlt : ⌊q⌋ < (N : ℤ) - 1 := Int.floor_lt.mpr (by push_cast; linarith)
      omega
  unfold advCoord
  have hxb := clampQ_bounds (v := (i : ℚ) - dt * ((N : ℚ) - 2) * vx) hlohi
  have hyb := clampQ_bounds (v := (j : ℚ) - dt * ((N : ℚ) - 2) * vy) hlohi
  have hxf := hfb _ hxb.1 hxb.2
  have hyf := hfb _ hyb.1 hyb.2
  refine ⟨⟨hxb.1, hxb.2⟩, ⟨hyb.1, hyb.2⟩, ⟨hxf.1, hxf.2⟩, ⟨hyf.1, hyf.2⟩, ?_⟩
  intro a c ha1 ha2 hc1 hc2
  exact IX_bounds (by omega) (by omega) (by omega) (by omega)

/-- Witness for C6 at `N = 3`, `dt = 7`, velocity values `1000` and `-1000`,
with the stencil-read bound instantiated at the upper-right stencil corner. -/
theorem Advect_backtrace_bounded_witness :
    ((1 / 2 : ℚ) ≤ advCoord 3 7 1000 1 ∧ advCoord 3 7 1000 1 ≤ ((3 : ℚ) - 2) + 1 / 2) ∧
      (0 ≤ IX 3 ((advCoord 3 7 1000 1).floor + 1) ((advCoord 3 7 (-1000) 1).floor + 1) ∧
        IX 3 ((advCoord 3 7 1000 1).floor + 1) ((advCoord 3 7 (-1000) 1).floor + 1) <
          (3 : ℤ) * 3) :=
  ⟨(Advect_backtrace_bounded 3 (by norm_num) 7 1000 (-1000) 1 1).1,
    (Advect_backtrace_bounded 3 (by norm_num) 7 1000 (-1000) 1 1).2.2.2.2 _ _
      (le_of_lt (lt_add_one _)) (le_refl _) (le_of_lt (lt_add_one _)) (le_refl _)⟩

theorem advCellVal_zero_vel (N : ℕ) (hN : 3 ≤ N) (d0 vX vY : Field) (dt : ℚ)
    (hvx : ∀ k, vX k = 0) (hvy : ∀ k, vY k = 0) {i j : ℤ} (hi : 1 ≤ i)
    (hi2 : i ≤ (N : ℤ) - 2) (hj : 1 ≤ j) (hj2 : j ≤ (N : ℤ) - 2) :
    advCellVal N d0 vX vY dt i j = d0 (IX N i j) := by
  have hNQ : (3 : ℚ) ≤ (N : ℚ) := by exact_mod_cast hN
  have hiQ1 : (1 : ℚ) ≤ (i : ℚ) := by exact_mod_cast hi
  have hjQ1 : (1 : ℚ) ≤ (j : ℚ) := by exact_mod_cast hj
  have hiQ2 : (i : ℚ) ≤ (N : ℚ) - 2 := by exact_mod_cast hi2
  have hjQ2 : (j : ℚ) ≤ (N : ℚ) - 2 := by exact_mod_cast hj2
  have hx : advCoord N dt (vX (IX N i j)) i = (i : ℚ) := by
    rw [hvx]
    unfold advCoord clampQ
    rw [mul_zero, sub_zero, if_neg (by linarith), if_pos (by linarith)]
  have hy : advCoord N dt (vY (IX N i j)) j = (j : ℚ) := by
    rw [hvy]
    unfold advCoord clampQ
    rw [mul_zero, sub_zero, if_neg (by linarith), if_pos (by linarith)]
  have hfi : ((i : ℚ)).floor = i := by rw [ratFloor_eq]; exact Int.floor_intCast i
  have hfj : ((j : ℚ)).floor = j := by rw [ratFloor_eq]; exact Int.floor_intCast j
  simp only [advCellVal]
  rw [hx, hy, hfi, hfj]
  simp only [sub_self, sub_zero, mul_zero, zero_mul, add_zero, zero_add, one_mul, mul_one]

/-- Claim C7 (amended): advecting through an everywhere-zero velocity field
reproduces `d0` exactly at every interior cell (the back-traced position is
the cell itself and bilinear interpolation there returns `d0[i,j]`);
boundary cells are rewritten by the closing `SetBoundary` call and need not
equal `d0`. -/
theorem Advect_zero_velocity_interior (N b : ℕ) (hN : 3 ≤ N) (d d0 vX vY : Field) (dt : ℚ)
    (hvx : ∀ k, vX k = 0) (hvy : ∀ k, vY k = 0) {i j : ℤ} (hi : 1 ≤ i)
    (hi2 : i ≤ (N : ℤ) - 2) (hj : 1 ≤ j) (hj2 : j ≤ (N : ℤ) - 2) :
    Advect N b d d0 vX vY dt (IX N i j) = d0 (IX N i j) := by
  rw [Advect_interior N b hN d d0 vX vY dt hi hi2 hj hj2]
  exact advCellVal_zero_vel N hN d0 vX vY dt hvx hvy hi hi2 hj hj2

/-- Witness for C7 at `N = 3`, `b = 0`, `dt = 5`, the cell `(1,1)`. -/
theorem Advect_zero_velocity_interior_witness :
    Advect 3 0 zeroF exD0 zeroF zeroF 5 (IX 3 1 1) = exD0 (IX 3 1 1) :=
  Advect_zero_velocity_interior 3 0 (by norm_num) zeroF exD0 zeroF zeroF 5 (fun _ => rfl)
    (fun _ => rfl) (by norm_num) (by norm_num) (by norm_num) (by norm_num)

/-- Counterexample to C7 as stated: on the boundary the advected field does
not reproduce `d0`.  At `N = 3`, kind `b = 0`, zero velocity, the closing
`SetBoundary` overwrites the edge cell `(1,0)` with the interior value
`d0(1,1) = 7`, which differs from `d0(1,0) = 5`. -/
theorem Advect_zero_velocity_boundary_cex :
    Advect 3 0 zeroF exD0 zeroF zeroF 1 (IX 3 1 0) ≠ exD0 (IX 3 1 0) := by
  have h1 : Advect 3 0 zeroF exD0 zeroF zeroF 1 (IX 3 1 0) = exD0 (IX 3 1 1) := by
    unfold Advect
    rw [sb_top 0 (by norm_num) _ (by norm_num) (by norm_num), if_neg (by norm_num),
      advLoop_val 3 (by norm_num) zeroF exD0 zeroF zeroF 1 (by norm_num) (by norm_num)
        (by norm_num) (by norm_num)]
    exact advCellVal_zero_vel 3 (by norm_num) exD0 zeroF zeroF 1 (fun _ => rfl) (fun _ => rfl)
      (by norm_num) (by norm_num) (by norm_num) (by norm_num)
  rw [h1]
  decide

/-! ## Zero fields are fixed points of every pass -/

theorem upd_zero {f : Field} (hf : ∀ k, f k = 0) {key : ℤ} {v : ℚ} (hv : v = 0) (k : ℤ) :
    upd f key v k = 0 := by
  unfold upd
  split_ifs
  · exact hv
  · exact hf k

theorem ifneg_zero {b c : ℕ} {q r : ℚ} (hq : q = 0) (hr : r = 0) :
    (if b = c then -q else r) = 0 := by
  split_ifs <;> simp [hq, hr]

theorem rowStep_zero {N b : ℕ} {x : Field} (hx : ∀ k, x k = 0) (i : ℤ) (k : ℤ) :
    rowStep N b x i k = 0 := by
  simp only [rowStep]
  have h1 : ∀ k1, upd x (IX N i 0) (if b = 2 then -(x (IX N i 1)) else x (IX N i 1)) k1 = 0 :=
    fun k1 => upd_zero hx (ifneg_zero (hx _) (hx _)) k1
  exact upd_zero h1 (ifneg_zero (h1 _) (h1 _)) k

theorem colStep_zero {N b : ℕ} {x : Field} (hx : ∀ k, x k = 0) (j : ℤ) (k : ℤ) :
    colStep N b x j k = 0 := by
  simp only [colStep]
  have h1 : ∀ k1, upd x (IX N 0 j) (if b = 1 then -(x (IX N 1 j)) else x (IX N 1 j)) k1 = 0 :=
    fun k1 => upd_zero hx (ifneg_zero (hx _) (hx _)) k1
  exact upd_zero h1 (ifneg_zero (h1 _) (h1 _)) k

theorem corners_zero {N : ℕ} {x3 : Field} (h : ∀ k, x3 k = 0) : ∀ k, corners N x3 k = 0 := by
  have step : ∀ (f : Field), (∀ k, f k = 0) → ∀ (key a c : ℤ) (k : ℤ),
      upd f key ((1 / 2 : ℚ) * (f a + f c)) k = 0 :=
    fun f hf key a c k => upd_zero hf (by rw [hf a, hf c, add_zero, mul_zero]) k
  simp only [corners]
  exact fun k => step _
    (fun k1 => step _ (fun k2 => step _ (fun k3 => step _ h _ _ _ k3) _ _ _ k2) _ _ _ k1)
    _ _ _ k

theorem setBoundary_zero {N b : ℕ} {x : Field} (hx : ∀ k, x k = 0) :
    ∀ k, SetBoundary N b x k = 0 := by
  unfold SetBoundary edgeLoops
  refine corners_zero ?_
  refine foldl_inv (fun fld : Field => ∀ k, fld k = 0) _ _ _ ?_ ?_
  · exact foldl_inv (fun fld : Field => ∀ k, fld k = 0) _ _ _ hx
      (fun acc i _ hacc => rowStep_zero hacc i)
  · exact fun acc j _ hacc => colStep_zero hacc j

theorem gsCell_zero {N : ℕ} {a cRecip : ℚ} {x0 x : Field} (h0 : ∀ k, x0 k = 0)
    (hx : ∀ k, x k = 0) (i j : ℤ) (k : ℤ) : gsCell N a cRecip x0 x i j k = 0 := by
  unfold gsCell
  refine upd_zero hx ?_ k
  rw [h0, hx, hx, hx, hx]
  ring

theorem gsSweep_zero {N : ℕ} {a cRecip : ℚ} {x0 x : Field} (h0 : ∀ k, x0 k = 0)
    (hx : ∀ k, x k = 0) : ∀ k, gsSweep N a cRecip x0 x k = 0 := by
  unfold gsSweep
  refine foldl_inv (fun fld : Field => ∀ k, fld k = 0) _ _ _ hx ?_
  intro acc j _ hacc
  refine foldl_inv (fun fld : Field => ∀ k, fld k = 0) _ _ _ hacc ?_
  intro acc2 i _ hacc2
  exact gsCell_zero h0 hacc2 i j

theorem lsIter_zero {N b : ℕ} {a cRecip : ℚ} {x0 : Field} (h0 : ∀ k, x0 k = 0) :
    ∀ (t : ℕ) (x : Field), (∀ k, x k = 0) → ∀ k, lsIter N b a cRecip x0 t x k = 0 := by
  intro t
  induction t with
  | zero => exact fun x hx k => hx k
  | succ n ih =>
    intro x hx k
    simp only [lsIter]
    exact ih _ (setBoundary_zero (gsSweep_zero h0 hx)) k

theorem LinearSolve_zero {N b : ℕ} {x x0 : Field} {a c : ℚ} (hx : ∀ k, x k = 0)
    (h0 : ∀ k, x0 k = 0) : ∀ k, LinearSolve N b x x0 a c k = 0 := by
  unfold LinearSolve
  exact lsIter_zero h0 N x hx

theorem Diffuse_zero {N b : ℕ} {x x0 : Field} {diff dt : ℚ} (hx : ∀ k, x k = 0)
    (h0 : ∀ k, x0 k = 0) : ∀ k, Diffuse N b x x0 diff dt k = 0 := by
  unfold Diffuse
  exact LinearSolve_zero hx h0

theorem advCellVal_zero {N : ℕ} {d0 : Field} (h0 : ∀ k, d0 k = 0) (vX vY : Field) (dt : ℚ)
    (i j : ℤ) : advCellVal N d0 vX vY dt i j = 0 := by
  simp only [advCellVal]
  rw [h0, h0, h0, h0]
  ring

theorem Advect_zero {N b : ℕ} {d d0 : Field} (vX vY : Field) (dt : ℚ) (hd : ∀ k, d k = 0)
    (h0 : ∀ k, d0 k = 0) : ∀ k, Advect N b d d0 vX vY dt k = 0 := by
  unfold Advect advLoop
  refine setBoundary_zero ?_
  refine foldl_inv (fun fld : Field => ∀ k, fld k = 0) _ _ _ hd ?_
  intro acc j _ hacc
  refine foldl_inv (fun fld : Field => ∀ k, fld k = 0) _ _ _ hacc ?_
  intro acc2 i _ hacc2
  exact fun k => upd_zero hacc2 (advCellVal_zero h0 vX vY dt i j) k

theorem divVal_zero {N : ℕ} {vX vY : Field} (hx : ∀ k, vX k = 0) (hy : ∀ k, vY k = 0)
    (i j : ℤ) : divVal N vX vY i j = 0 := by
  unfold divVal
  rw [hx, hx, hy, hy]
  ring

theorem pZeroLoop_zero {N : ℕ} {p : Field} (hp : ∀ k, p k = 0) : ∀ k, pZeroLoop N p k = 0 := by
  unfold pZeroLoop
  refine foldl_inv (fun fld : Field => ∀ k, fld k = 0) _ _ _ hp ?_
  intro acc j _ hacc
  refine foldl_inv (fun fld : Field => ∀ k, fld k = 0) _ _ _ hacc ?_
  intro acc2 i _ hacc2
  exact fun k => upd_zero hacc2 rfl k

theorem divLoop_zero {N : ℕ} {vX vY dv : Field} (hx : ∀ k, vX k = 0) (hy : ∀ k, vY k = 0)
    (hdv : ∀ k, dv k = 0) : ∀ k, divLoop N vX vY dv k = 0 := by
  unfold divLoop
  refine foldl_inv (fun fld : Field => ∀ k, fld k = 0) _ _ _ hdv ?_
  intro acc j _ hacc
  refine foldl_inv (fun fld : Field => ∀ k, fld k = 0) _ _ _ hacc ?_
  intro acc2 i _ hacc2
  exact fun k => upd_zero hacc2 (divVal_zero hx hy i j) k

theorem gradLoop_zero {N : ℕ} {p vX vY : Field} (hp : ∀ k, p k = 0) (hx : ∀ k, vX k = 0)
    (hy : ∀ k, vY k = 0) :
    (∀ k, (gradLoop N p vX vY).1 k = 0) ∧ (∀ k, (gradLoop N p vX vY).2 k = 0) := by
  unfold gradLoop
  refine foldl_inv
    (fun pd : Field × Field => (∀ k, pd.1 k = 0) ∧ (∀ k, pd.2 k = 0)) _ _ _ ⟨hx, hy⟩ ?_
  intro pd j _ hpd
  refine foldl_inv
    (fun pd : Field × Field => (∀ k, pd.1 k = 0) ∧ (∀ k, pd.2 k = 0)) _ _ _ hpd ?_
  intro pd2 i _ hpd2
  constructor
  · intro k
    refine upd_zero hpd2.1 ?_ k
    rw [hpd2.1, hp, hp]
    ring
  · intro k
    refine upd_zero hpd2.2 ?_ k
    rw [hpd2.2, hp, hp]
    ring

theorem Project_zero {N : ℕ} {velocX velocY p dv : Field} (hx : ∀ k, velocX k = 0)
    (hy : ∀ k, velocY k = 0) (hp : ∀ k, p k = 0) (hdv : ∀ k, dv k = 0) :
    (∀ k, (Project N velocX velocY p dv).vx k = 0) ∧
      (∀ k, (Project N velocX velocY p dv).vy k = 0) ∧
      (∀ k, (Project N velocX velocY p dv).p k = 0) ∧
      (∀ k, (Project N velocX velocY p dv).dv k = 0) := by
  have h1 : ∀ k, (divPLoop N velocX velocY p dv).1 k = 0 := by
    rw [divPLoop_split]
    exact pZeroLoop_zero hp
  have h2 : ∀ k, (divPLoop N velocX velocY p dv).2 k = 0 := by
    rw [divPLoop_split]
    exact divLoop_zero hx hy hdv
  have hdv1 : ∀ k, SetBoundary N 0 (divPLoop N velocX velocY p dv).2 k = 0 :=
    setBoundary_zero h2
  have hp1 : ∀ k, SetBoundary N 0 (divPLoop N velocX velocY p dv).1 k = 0 :=
    setBoundary_zero h1
  have hp2 : ∀ k, LinearSolve N 0 (SetBoundary N 0 (divPLoop N velocX velocY p dv).1)
      (SetBoundary N 0 (divPLoop N velocX velocY p dv).2) 1 6 k = 0 :=
    LinearSolve_zero hp1 hdv1
  have hgrad := gradLoop_zero (N := N) hp2 hx hy
  exact ⟨setBoundary_zero hgrad.1, setBoundary_zero hgrad.2, hp2, hdv1⟩

theorem stepCore_zero (N : ℕ) (dt diff visc : ℚ) (s : SimState) (hd : ∀ k, s.density k = 0)
    (hx : ∀ k, s.vx k = 0) (hy : ∀ k, s.vy k = 0) :
    (∀ k, (stepCore N dt diff visc s).density k = 0) ∧
      (∀ k, (stepCore N dt diff visc s).vx k = 0) ∧
      (∀ k, (stepCore N dt diff visc s).vy k = 0) := by
  have hdvx : ∀ k, coreDiffVx N dt visc s k = 0 := Diffuse_zero hx hx
  have hdvy : ∀ k, coreDiffVy N dt visc s k = 0 := Diffuse_zero hy hy
  have hproj1 : (∀ k, (coreProj1 N dt visc s).vx k = 0) ∧
      (∀ k, (coreProj1 N dt visc s).vy k = 0) ∧ (∀ k, (coreProj1 N dt visc s).p k = 0) ∧
      (∀ k, (coreProj1 N dt visc s).dv k = 0) := Project_zero hdvx hdvy hx hy
  have hadvx : ∀ k, coreAdvVx N dt visc s k = 0 :=
    Advect_zero _ _ dt hproj1.1 hproj1.2.2.1
  have hadvy : ∀ k, coreAdvVy N dt visc s k = 0 :=
    Advect_zero _ _ dt hproj1.2.1 hproj1.2.2.2
  have hproj2 : (∀ k, (coreProj2 N dt visc s).vx k = 0) ∧
      (∀ k, (coreProj2 N dt visc s).vy k = 0) ∧ (∀ k, (coreProj2 N dt visc s).p k = 0) ∧
      (∀ k, (coreProj2 N dt visc s).dv k = 0) :=
    Project_zero hadvx hadvy hproj1.2.2.1 hproj1.2.2.2
  have hdiffd : ∀ k, coreDiffD N dt diff s k = 0 := Diffuse_zero hd hd
  have hadvd : ∀ k, coreAdvD N dt diff visc s k = 0 :=
    Advect_zero _ _ dt hdiffd hd
  exact ⟨hadvd, hproj2.1, hproj2.2.1⟩

/-- Claim C1 (amended): `StepSimulation` itself injects density `100` and
velocity `(1,0)` at the center cell on every invocation, so from the
all-zero state the density does not stay zero; the numerical passes alone
(`stepCore`, the step sequence after the injection) do preserve it: with
Density, Vx and Vy all zero, any number of iterations of the numerical
passes leaves the Density field uniformly zero. -/
theorem stepCore_zero_density (N : ℕ) (dt diff visc : ℚ) (n : ℕ) (s : SimState)
    (h : ∀ k, s.density k = 0 ∧ s.vx k = 0 ∧ s.vy k = 0) :
    ∀ k, ((stepCore N dt diff visc)^[n] s).density k = 0 := by
  suffices hmain : ∀ (m : ℕ) (s2 : SimState), (∀ k, s2.density k = 0) → (∀ k, s2.vx k = 0) →
      (∀ k, s2.vy k = 0) →
      (∀ k, ((stepCore N dt diff visc)^[m] s2).density k = 0) ∧
        (∀ k, ((stepCore N dt diff visc)^[m] s2).vx k = 0) ∧
        (∀ k, ((stepCore N dt diff visc)^[m] s2).vy k = 0) by
    exact (hmain n s (fun k => (h k).1) (fun k => (h k).2.1) (fun k => (h k).2.2)).1
  intro m
  induction m with
  | zero => exact fun s2 h1 h2 h3 => ⟨h1, h2, h3⟩
  | succ t ih =>
    intro s2 h1 h2 h3
    rw [Function.iterate_succ_apply]
    have hz := stepCore_zero N dt diff visc s2 h1 h2 h3
    exact ih (stepCore N dt diff visc s2) hz.1 hz.2.1 hz.2.2

/-- Witness for C1 (amended) at `N = 3`, two iterations from the zero state. -/
theorem stepCore_zero_density_witness :
    ((stepCore 3 1 1 1)^[2] zeroS).density (IX 3 1 1) = 0 :=
  stepCore_zero_density 3 1 1 1 2 zeroS (fun _ => ⟨rfl, rfl, rfl⟩) (IX 3 1 1)

theorem advCoord_dt0 {N : ℕ} (hN : 3 ≤ N) (v : ℚ) {i : ℤ} (hi : 1 ≤ i)
    (hi2 : i ≤ (N : ℤ) - 2) : advCoord N 0 v i = (i : ℚ) := by
  have hNQ : (3 : ℚ) ≤ (N : ℚ) := by exact_mod_cast hN
  have hiQ1 : (1 : ℚ) ≤ (i : ℚ) := by exact_mod_cast hi
  have hiQ2 : (i : ℚ) ≤ (N : ℚ) - 2 := by exact_mod_cast hi2
  unfold advCoord clampQ
  rw [zero_mul, zero_mul, sub_zero, if_neg (by linarith), if_pos (by linarith)]

theorem advCellVal_dt0 {N : ℕ} (hN : 3 ≤ N) (d0 vX vY : Field) {i j : ℤ} (hi : 1 ≤ i)
    (hi2 : i ≤ (N : ℤ) - 2) (hj : 1 ≤ j) (hj2 : j ≤ (N : ℤ) - 2) :
    advCellVal N d0 vX vY 0 i j = d0 (IX N i j) := by
  simp only [advCellVal]
  rw [advCoord_dt0 hN _ hi hi2, advCoord_dt0 hN _ hj hj2]
  have hfi : ((i : ℚ)).floor = i := by rw [ratFloor_eq]; exact Int.floor_intCast i
  have hfj : ((j : ℚ)).floor = j := by rw [ratFloor_eq]; exact Int.floor_intCast j
  rw [hfi, hfj]
  simp only [sub_self, sub_zero, mul_zero, zero_mul, add_zero, zero_add, one_mul, mul_one]

/-- Counterexample to C1 as stated: from all-zero fields, one invocation of
`StepSimulation` (here with `N = 3`, `dt = 0`, zero diffusion and
viscosity) leaves Density at the center cell equal to the hard-coded
injected amount `100`, not `0` — `StepSimulation` applies forcing
unconditionally on every call. -/
theorem StepSimulation_zero_state_density_cex :
    (StepSimulation 3 0 0 0 zeroS).density (IX 3 1 1) ≠ 0 := by
  have h1 : (StepSimulation 3 0 0 0 zeroS).density (IX 3 1 1) =
      (stepInject 3 zeroS).density (IX 3 1 1) := by
    show coreAdvD 3 0 0 0 (stepInject 3 zeroS) (IX 3 1 1) = _
    unfold coreAdvD
    rw [Advect_interior 3 0 (by norm_num) _ _ _ _ 0 (by norm_num) (by norm_num) (by norm_num)
      (by norm_num)]
    exact advCellVal_dt0 (by norm_num) _ _ _ (by norm_num) (by norm_num) (by norm_num)
      (by norm_num)
  rw [h1]
  have h2 : (stepInject 3 zeroS).density (IX 3 1 1) = 100 := by
    have hc : IX 3 ((3 : ℤ) / 2) ((3 : ℤ) / 2) = IX 3 1 1 := by norm_num
    show upd zeroS.density (IX 3 ((3 : ℤ) / 2) ((3 : ℤ) / 2))
      (zeroS.density (IX 3 ((3 : ℤ) / 2) ((3 : ℤ) / 2)) + 100) (IX 3 1 1) = 100
    rw [hc, upd_same]
    show (0 : ℚ) + 100 = 100
    norm_num
  rw [h2]
  norm_num

/-! ## What the velocity advection of `StepSimulation` actually receives (C2) -/

theorem gsCell_a0 (N : ℕ) (x0 x : Field) (i j : ℤ) :
    gsCell N 0 1 x0 x i j = upd x (IX N i j) (x0 (IX N i j)) := by
  unfold gsCell
  have h : (x0 (IX N i j) +
      0 * (x (IX N (i + 1) j) + x (IX N (i - 1) j) + x (IX N i (j + 1)) + x (IX N i (j - 1)))) *
      1 = x0 (IX N i j) := by ring
  rw [h]

theorem gsSweep_a0 (N : ℕ) (x0 x : Field) :
    gsSweep N 0 1 x0 x =
      (intRange 1 (N - 2)).foldl
        (fun acc jc =>
          (intRange 1 (N - 2)).foldl
            (fun acc2 ic => upd acc2 (IX N ic jc) (x0 (IX N ic jc))) acc) x := by
  unfold gsSweep
  have hcell : ∀ jc : ℤ, (fun (acc2 : Field) (ic : ℤ) => gsCell N 0 1 x0 acc2 ic jc) =
      (fun (acc2 : Field) (ic : ℤ) => upd acc2 (IX N ic jc) (x0 (IX N ic jc))) := by
    intro jc
    funext acc2 ic
    exact gsCell_a0 N x0 acc2 ic jc
  have hstep : (fun (acc : Field) (jc : ℤ) =>
        (intRange 1 (N - 2)).foldl (fun acc2 ic => gsCell N 0 1 x0 acc2 ic jc) acc) =
      (fun (acc : Field) (jc : ℤ) =>
        (intRange 1 (N - 2)).foldl
          (fun acc2 ic => upd acc2 (IX N ic jc) (x0 (IX N ic jc))) acc) := by
    funext acc jc
    rw [hcell jc]
  rw [hstep]

theorem gsSweep_a0_interior {N : ℕ} (hN : 3 ≤ N) (x0 x : Field) {i j : ℤ} (hi : 1 ≤ i)
    (hi2 : i ≤ (N : ℤ) - 2) (hj : 1 ≤ j) (hj2 : j ≤ (N : ℤ) - 2) :
    gsSweep N 0 1 x0 x (IX N i j) = x0 (IX N i j) := by
  rw [gsSweep_a0]
  exact nestedFold_val N hN (fun ic jc => x0 (IX N ic jc)) x hi hi2 hj hj2

theorem LinearSolve_a0_interior {N b : ℕ} (hN : 3 ≤ N) (x x0 : Field) {i j : ℤ}
    (hi : 1 ≤ i) (hi2 : i ≤ (N : ℤ) - 2) (hj : 1 ≤ j) (hj2 : j ≤ (N : ℤ) - 2) :
    LinearSolve N b x x0 0 1 (IX N i j) = x0 (IX N i j) := by
  unfold LinearSolve
  have hone : (1 / 1 : ℚ) = 1 := by norm_num
  rw [hone]
  have main : ∀ t : ℕ, 1 ≤ t → ∀ y : Field,
      lsIter N b 0 1 x0 t y (IX N i j) = x0 (IX N i j) := by
    intro t
    induction t with
    | zero => intro h; exact absurd h (by norm_num)
    | succ t ih =>
      intro _ y
      simp only [lsIter]
      rcases Nat.eq_zero_or_pos t with rfl | ht
      · simp only [lsIter]
        rw [sb_interior b hN _ hi hi2 hj hj2]
        exact gsSweep_a0_interior hN x0 y hi hi2 hj hj2
      · exact ih ht _
  exact main N (by omega) x

theorem LinearSolve_boundary_form {N b : ℕ} (hN : 1 ≤ N) (x x0 : Field) (a c : ℚ) :
    LinearSolve N b x x0 a c =
      SetBoundary N b (gsSweep N a (1 / c) x0
        ((fun y => SetBoundary N b (gsSweep N a (1 / c) x0 y))^[N - 1] x)) := by
  unfold LinearSolve
  rw [lsIter_eq_iterate]
  obtain ⟨m, rfl⟩ : ∃ m, N = m + 1 := ⟨N - 1, by omega⟩
  rw [Nat.add_sub_cancel, Function.iterate_succ_apply']

/-- Claim C2 (the code deviates): in `StepSimulation`, the velocity
advection pass receives the scratch buffers `Vx0`/`Vy0` — which the first
`Project` call has just overwritten with the pressure and divergence
workspace — as both the advected source `d0` and the carrying velocity, not
the post-diffusion velocity held in `Vx`/`Vy`.  Concretely, at `N = 3`,
`dt = 1`, `visc = 0`, starting from the all-zero state, the buffer that
`Advect(1, Vx, Vx0, Vx0, Vy0, dt)` receives as `d0` and carrier holds `0`
at the interior cell, while the post-diffusion `Vx` holds `1` there. -/
theorem stepAdvect_carrier_mismatch :
    (coreProj1 3 1 0 (stepInject 3 zeroS)).p (IX 3 1 1) ≠
      coreDiffVx 3 1 0 (stepInject 3 zeroS) (IX 3 1 1) := by
  have hc : IX 3 ((3 : ℤ) / 2) ((3 : ℤ) / 2) = IX 3 1 1 := by norm_num
  have hs1vy : ∀ k, (stepInject 3 zeroS).vy k = 0 := by
    intro k
    show upd zeroS.vy (IX 3 ((3 : ℤ) / 2) ((3 : ℤ) / 2))
      (zeroS.vy (IX 3 ((3 : ℤ) / 2) ((3 : ℤ) / 2)) + 0) k = 0
    refine upd_zero (fun _ => rfl) ?_ k
    show (0 : ℚ) + 0 = 0
    norm_num
  have hs1vx_ne : ∀ k, k ≠ IX 3 1 1 → (stepInject 3 zeroS).vx k = 0 := by
    intro k hk
    show upd zeroS.vx (IX 3 ((3 : ℤ) / 2) ((3 : ℤ) / 2))
      (zeroS.vx (IX 3 ((3 : ℤ) / 2) ((3 : ℤ) / 2)) + 1) k = 0
    rw [hc, upd_ne _ _ _ hk]
    rfl
  have hs1vx_at : (stepInject 3 zeroS).vx (IX 3 1 1) = 1 := by
    show upd zeroS.vx (IX 3 ((3 : ℤ) / 2) ((3 : ℤ) / 2))
      (zeroS.vx (IX 3 ((3 : ℤ) / 2) ((3 : ℤ) / 2)) + 1) (IX 3 1 1) = 1
    rw [hc, upd_same]
    show (0 : ℚ) + 1 = 1
    norm_num
  have hdiffeq : coreDiffVx 3 1 0 (stepInject 3 zeroS) =
      LinearSolve 3 1 (stepInject 3 zeroS).vx (stepInject 3 zeroS).vx 0 1 := by
    show Diffuse 3 1 (stepInject 3 zeroS).vx (stepInject 3 zeroS).vx 0 1 = _
    unfold Diffuse
    norm_num
  have hR : coreDiffVx 3 1 0 (stepInject 3 zeroS) (IX 3 1 1) = 1 := by
    rw [hdiffeq,
      LinearSolve_a0_interior (by norm_num) _ _ (by norm_num) (by norm_num) (by norm_num)
        (by norm_num)]
    exact hs1vx_at
  have hvy0 : ∀ k, coreDiffVy 3 1 0 (stepInject 3 zeroS) k = 0 := Diffuse_zero hs1vy hs1vy
  have hone : (1 / 1 : ℚ) = 1 := by norm_num
  have hbf := LinearSolve_boundary_form (N := 3) (b := 1) (by norm_num)
    (stepInject 3 zeroS).vx (stepInject 3 zeroS).vx 0 1
  rw [hone] at hbf
  have hdval : divVal 3 (coreDiffVx 3 1 0 (stepInject 3 zeroS))
      (coreDiffVy 3 1 0 (stepInject 3 zeroS)) 1 1 = 0 := by
    unfold divVal
    have e1 : IX 3 (1 + 1) 1 = IX 3 (((3 : ℕ) : ℤ) - 1) 1 := by norm_num [IX]
    have e2 : IX 3 (1 - 1) 1 = IX 3 0 1 := by norm_num [IX]
    rw [e1, e2, hvy0, hvy0, hdiffeq, hbf,
      sb_right 1 (by norm_num) _ (by norm_num) (by norm_num),
      sb_left 1 (by norm_num) _ (by norm_num) (by norm_num), if_pos rfl, if_pos rfl]
    ring
  have hdl : ∀ k, (divPLoop 3 (coreDiffVx 3 1 0 (stepInject 3 zeroS))
      (coreDiffVy 3 1 0 (stepInject 3 zeroS)) (stepInject 3 zeroS).vx
      (stepInject 3 zeroS).vy).2 k = 0 := by
    rw [divPLoop_split]
    unfold divLoop
    refine foldl_inv (fun fld : Field => ∀ k, fld k = 0) _ _ _ hs1vy ?_
    intro acc j hj hacc
    refine foldl_inv (fun fld : Field => ∀ k, fld k = 0) _ _ _ hacc ?_
    intro acc2 i hi hacc2
    have hi1 : i = 1 := by have := mem_intRange.mp hi; omega
    have hj1 : j = 1 := by have := mem_intRange.mp hj; omega
    subst hi1
    subst hj1
    exact fun k => upd_zero hacc2 hdval k
  have hpl : ∀ k, (divPLoop 3 (coreDiffVx 3 1 0 (stepInject 3 zeroS))
      (coreDiffVy 3 1 0 (stepInject 3 zeroS)) (stepInject 3 zeroS).vx
      (stepInject 3 zeroS).vy).1 k = 0 := by
    rw [divPLoop_split]
    intro k
    show pZeroLoop 3 (stepInject 3 zeroS).vx k = 0
    by_cases hk : k = IX 3 1 1
    · subst hk
      unfold pZeroLoop
      exact nestedFold_val 3 (by norm_num) (fun _ _ => 0) (stepInject 3 zeroS).vx
        (i := 1) (j := 1) (by norm_num) (by norm_num) (by norm_num) (by norm_num)
    · unfold pZeroLoop
      rw [nestedFold_pres 3 (fun _ _ => 0) (stepInject 3 zeroS).vx
        (fun jc hjc ic hic => ?_)]
      · exact hs1vx_ne k hk
      · have h1 := mem_intRange.mp hjc
        have h2 := mem_intRange.mp hic
        have hic1 : ic = 1 := by omega
        have hjc1 : jc = 1 := by omega
        subst hic1
        subst hjc1
        exact hk
  have hL : (coreProj1 3 1 0 (stepInject 3 zeroS)).p (IX 3 1 1) = 0 :=
    LinearSolve_zero (setBoundary_zero hpl) (setBoundary_zero hdl) (IX 3 1 1)
  rw [hL, hR]
  norm_num

end FluidGrid
